import Mathlib

/-!
Verification of the transaction ledger engine: a shallow embedding of the
amount parser, the disk-spilling transaction cache and the per-client
state machine, together with proofs and refutations of the specified
properties.
-/

namespace Txn

/-! ### Association-list maps (model of std::collections::HashMap) -/

def findA {α : Type} : List (Nat × α) → Nat → Option α
  | [], _ => none
  | p :: rest, key => if p.1 = key then some p.2 else findA rest key

def eraseA {α : Type} : List (Nat × α) → Nat → List (Nat × α)
  | [], _ => []
  | p :: rest, key => if p.1 = key then eraseA rest key else p :: eraseA rest key

def insertA {α : Type} (l : List (Nat × α)) (key : Nat) (v : α) : List (Nat × α) :=
  (key, v) :: eraseA l key

/-- Model of HashMap::extend: entries of the second map override the first. -/
def extendA {α : Type} (l other : List (Nat × α)) : List (Nat × α) :=
  other.foldl (fun acc p => insertA acc p.1 p.2) l

def NodupK {α : Type} (l : List (Nat × α)) : Prop :=
  (l.map Prod.fst).Nodup

theorem findA_eraseA {α : Type} (l : List (Nat × α)) (key k : Nat) :
    findA (eraseA l key) k = if key = k then none else findA l k := by
  induction l with
  | nil => simp [findA, eraseA]
  | cons p rest ih =>
    by_cases hp : p.1 = key
    · by_cases h : key = k
      · simp only [eraseA, if_pos hp, ih, if_pos h]
      · have hpk : p.1 = k → False := fun hh => h (hp.symm.trans hh)
        simp only [eraseA, if_pos hp, ih, findA, if_neg h, if_neg hpk]
    · by_cases hpk : p.1 = k
      · have h : key = k → False := fun hh => hp (hpk.trans hh.symm)
        simp only [eraseA, if_neg hp, findA, if_pos hpk, if_neg h]
      · simp only [eraseA, if_neg hp, findA, if_neg hpk, ih]

theorem findA_insertA {α : Type} (l : List (Nat × α)) (key : Nat) (v : α) (k : Nat) :
    findA (insertA l key v) k = if key = k then some v else findA l k := by
  unfold insertA
  by_cases h : key = k
  · simp [findA, h]
  · simp [findA, h, findA_eraseA]

theorem eraseA_sublist {α : Type} (l : List (Nat × α)) (key : Nat) :
    (eraseA l key).Sublist l := by
  induction l with
  | nil => simp [eraseA]
  | cons p rest ih =>
    by_cases hp : p.1 = key
    · simp only [eraseA, if_pos hp]
      exact ih.cons p
    · simp only [eraseA, if_neg hp]
      exact ih.cons₂ p

theorem mem_eraseA {α : Type} {l : List (Nat × α)} {key : Nat} {p : Nat × α}
    (h : p ∈ eraseA l key) : p ∈ l :=
  (eraseA_sublist l key).subset h

theorem not_mem_keys_eraseA {α : Type} (l : List (Nat × α)) (key : Nat) :
    key ∉ (eraseA l key).map Prod.fst := by
  induction l with
  | nil => simp [eraseA]
  | cons p rest ih =>
    by_cases hp : p.1 = key
    · simpa [eraseA, hp] using ih
    · simp only [eraseA, if_neg hp, List.map_cons, List.mem_cons]
      intro hmem
      rcases hmem with h | h
      · exact hp h.symm
      · exact ih h

theorem NodupK_eraseA {α : Type} {l : List (Nat × α)} (h : NodupK l) (key : Nat) :
    NodupK (eraseA l key) :=
  List.Nodup.sublist ((eraseA_sublist l key).map Prod.fst) h

theorem NodupK_insertA {α : Type} {l : List (Nat × α)} (h : NodupK l) (key : Nat) (v : α) :
    NodupK (insertA l key v) := by
  unfold NodupK insertA
  simp only [List.map_cons]
  exact List.nodup_cons.mpr ⟨not_mem_keys_eraseA l key, NodupK_eraseA h key⟩

theorem mem_insertA {α : Type} {l : List (Nat × α)} {key : Nat} {v : α} {p : Nat × α}
    (h : p ∈ insertA l key v) : p = (key, v) ∨ p ∈ l := by
  unfold insertA at h
  rcases List.mem_cons.mp h with h | h
  · exact Or.inl h
  · exact Or.inr (mem_eraseA h)

theorem findA_eq_none_of_not_mem_keys {α : Type} {l : List (Nat × α)} {k : Nat}
    (h : k ∉ l.map Prod.fst) : findA l k = none := by
  induction l with
  | nil => rfl
  | cons p rest ih =>
    simp only [List.map_cons, List.mem_cons, not_or] at h
    have hp : ¬ p.1 = k := fun hh => h.1 hh.symm
    simpa [findA, hp] using ih h.2

theorem findA_mem {α : Type} {l : List (Nat × α)} {k : Nat} {v : α}
    (h : findA l k = some v) : (k, v) ∈ l := by
  induction l with
  | nil => simp [findA] at h
  | cons p rest ih =>
    by_cases hp : p.1 = k
    · simp only [findA, if_pos hp, Option.some.injEq] at h
      have hpv : (k, v) = p := by
        cases p with
        | mk a b => simp_all
      exact List.mem_cons.mpr (Or.inl hpv)
    · simp only [findA, if_neg hp] at h
      exact List.mem_cons.mpr (Or.inr (ih h))

theorem mem_extendA {α : Type} {l other : List (Nat × α)} {p : Nat × α}
    (h : p ∈ extendA l other) : p ∈ l ∨ p ∈ other := by
  induction other generalizing l with
  | nil => exact Or.inl h
  | cons q rest ih =>
    unfold extendA at h
    simp only [List.foldl_cons] at h
    rcases ih h with h2 | h2
    · rcases mem_insertA h2 with h3 | h3
      · have hpq : p = q := by rw [h3]
        right
        exact List.mem_cons.mpr (Or.inl hpq)
      · exact Or.inl h3
    · right; exact List.mem_cons.mpr (Or.inr h2)

theorem NodupK_extendA {α : Type} {l other : List (Nat × α)} (h : NodupK l) :
    NodupK (extendA l other) := by
  induction other generalizing l with
  | nil => exact h
  | cons q rest ih =>
    unfold extendA
    simp only [List.foldl_cons]
    exact ih (NodupK_insertA h q.1 q.2)

theorem findA_extendA {α : Type} {other : List (Nat × α)} (l : List (Nat × α)) (k : Nat)
    (h : NodupK other) :
    findA (extendA l other) k =
      match findA other k with
      | some v => some v
      | none => findA l k := by
  induction other generalizing l with
  | nil => simp [extendA, findA]
  | cons q rest ih =>
    have h2 : (q.1 :: rest.map Prod.fst).Nodup := h
    have hn : NodupK rest := (List.nodup_cons.mp h2).2
    have hq : q.1 ∉ rest.map Prod.fst := (List.nodup_cons.mp h2).1
    have hrec := ih (insertA l q.1 q.2) hn
    unfold extendA at hrec ⊢
    simp only [List.foldl_cons]
    rw [hrec]
    by_cases hk : q.1 = k
    · have hnone : findA rest k = none :=
        findA_eq_none_of_not_mem_keys (by rw [← hk]; exact hq)
      rw [hnone]
      simp [findA, hk, findA_insertA]
    · cases hfind : findA rest k with
      | some v => simp [findA, hfind, hk]
      | none => simp [findA, hfind, hk, findA_insertA, findA_eraseA]

/-! ### Decimal amount parsing (src/type_defs.rs, Amount::from_str)

The value representation of the external dependency rust_decimal:
a signed integer mantissa together with a scale (number of fractional
digits). -/

structure DecimalRep where
  mantissa : Int
  scale : Nat
deriving DecidableEq, Repr

def DecimalRep.value (d : DecimalRep) : ℚ :=
  (d.mantissa : ℚ) / (10 : ℚ) ^ d.scale

/-- Digit scanner for decimal text: accumulates the mantissa and counts the
fractional digits after a single decimal point; anything else is rejected. -/
def scanDecimal : List Char → Nat → Nat → Bool → Bool → Option (Nat × Nat)
  | [], acc, frac, _, seenDigit =>
    if seenDigit then some (acc, frac) else none
  | ch :: rest, acc, frac, afterDot, seenDigit =>
    if ch.isDigit then
      scanDecimal rest (acc * 10 + (ch.toNat - 48)) (if afterDot then frac + 1 else frac)
        afterDot true
    else if ch = '.' then
      if afterDot then none else scanDecimal rest acc frac true seenDigit
    else none

/-- Model of the external collaborator rust_decimal Decimal::from_str on the
plain decimal fragment: an optional sign followed by digits holding at most
one decimal point; the scale is the count of digits after the point. -/
def decimalFromStr (s : String) : Option DecimalRep :=
  match s.data with
  | [] => none
  | c :: rest =>
    if c = '-' then
      (scanDecimal rest 0 0 false false).map (fun p => DecimalRep.mk (-(p.1 : Int)) p.2)
    else if c = '+' then
      (scanDecimal rest 0 0 false false).map (fun p => DecimalRep.mk (p.1 : Int) p.2)
    else
      (scanDecimal (c :: rest) 0 0 false false).map (fun p => DecimalRep.mk (p.1 : Int) p.2)

/-- Decimal precision level, src/type_defs.rs line 18. -/
def PRECISION : Nat := 4

/-- Possible outcomes of Amount::from_str: a parsed decimal, the precision
error, or the abort caused by calling unwrap on a failed parse. -/
inductive ParseOutcome where
  | ok (d : DecimalRep)
  | invalidPrecision
  | unwrapFailure
deriving DecidableEq, Repr

/-- Amount::from_str, src/type_defs.rs lines 35-42: the parse result is
unwrapped (so a malformed text aborts), then the scale is checked against
PRECISION. -/
def Amount.fromStr (s : String) : ParseOutcome :=
  match decimalFromStr s with
  | none => ParseOutcome.unwrapFailure
  | some d => if PRECISION < d.scale then ParseOutcome.invalidPrecision else ParseOutcome.ok d

/-! ### Transactions (src/type_defs.rs)

Client and transaction identifiers are unsigned integers (u16, u32);
amounts are the exact decimal values of rust_decimal, embedded in ℚ. -/

/-- Ledger amounts.  Every Amount in the program is produced by
Amount::from_str (which enforces scale ≤ 4) or Amount::new, and add/sub
preserve that scale bound, so the value space is exactly the multiples of
10⁻⁴; scaling by 10⁴ embeds it in ℤ with addition, subtraction, order and
equality transported exactly. -/
abbrev Amount := Int

inductive Transaction where
  | deposit (client : Nat) (txid : Nat) (amount : Amount)
  | withdrawal (client : Nat) (txid : Nat) (amount : Amount)
  | dispute (client : Nat) (txid : Nat)
  | resolve (client : Nat) (txid : Nat)
  | chargeBack (client : Nat) (txid : Nat)
  | unknown
deriving DecidableEq, Repr

def Transaction.isDeposit : Transaction → Bool
  | .deposit _ _ _ => true
  | _ => false

/-! ### TransactionCache (src/transaction_cache.rs) -/

/-- CacheLine, src/transaction_cache.rs lines 21-25. Default has loaded = false. -/
structure CacheLine where
  loaded : Bool
  transactions : List (Nat × Transaction)
deriving Repr

def CacheLine.dflt : CacheLine := CacheLine.mk false []

/-- TransactionCache state: the const generics, the in-memory partition map,
the resident counter and the contents of the private cache directory
(one entry per partition key = one file named by that key). -/
structure TransactionCache where
  cacheSizeLimit : Nat
  cacheLineSize : Nat
  cache : List (Nat × CacheLine)
  cacheSize : Nat
  disk : List (Nat × List (Nat × Transaction))
deriving Repr

def TransactionCache.new (limit lineSize : Nat) : TransactionCache :=
  TransactionCache.mk limit lineSize [] 0 []

/-- CacheKey::from, src/transaction_cache.rs lines 14-18. -/
def TransactionCache.cacheKey (s : TransactionCache) (txid : Nat) : Nat :=
  txid / s.cacheLineSize

/-- load_cache, src/transaction_cache.rs lines 85-103: a line that is not
loaded and whose file exists is merged with the file contents (file entries
override resident ones, HashMap::extend) and marked loaded; the number of
records read is returned. -/
def TransactionCache.loadLine (disk : List (Nat × List (Nat × Transaction))) (key : Nat)
    (line : CacheLine) : CacheLine × Nat :=
  if line.loaded then (line, 0)
  else
    match findA disk key with
    | some stored => (CacheLine.mk true (extendA line.transactions stored), stored.length)
    | none => (line, 0)

/-- The common prefix of get/contains_key/remove: entry(key).or_insert(default)
followed by load_cache, adding the number of loaded records to cache_size. -/
def TransactionCache.touch (s : TransactionCache) (key : Nat) : CacheLine × TransactionCache :=
  let line0 := (findA s.cache key).getD CacheLine.dflt
  let r := TransactionCache.loadLine s.disk key line0
  (r.1, { s with cache := insertA s.cache key r.1, cacheSize := s.cacheSize + r.2 })

/-- get, src/transaction_cache.rs lines 53-62. -/
def TransactionCache.get (s : TransactionCache) (txid : Nat) :
    Option Transaction × TransactionCache :=
  let r := s.touch (s.cacheKey txid)
  (findA r.1.transactions txid, r.2)

/-- contains_key, src/transaction_cache.rs lines 64-73. -/
def TransactionCache.containsKey (s : TransactionCache) (txid : Nat) :
    Bool × TransactionCache :=
  let r := s.touch (s.cacheKey txid)
  ((findA r.1.transactions txid).isSome, r.2)

/-- remove, src/transaction_cache.rs lines 75-83. -/
def TransactionCache.remove (s : TransactionCache) (txid : Nat) :
    Option Transaction × TransactionCache :=
  let key := s.cacheKey txid
  let r := s.touch key
  (findA r.1.transactions txid,
   { r.2 with cache := insertA r.2.cache key (CacheLine.mk r.1.loaded (eraseA r.1.transactions txid)) })

/-- store_cache, src/transaction_cache.rs lines 105-117: when the resident
counter exceeds the limit, every resident partition is written to its file
(truncate and rewrite), the in-memory map is cleared and the counter reset. -/
def TransactionCache.storeCache (s : TransactionCache) : TransactionCache :=
  if s.cacheSizeLimit < s.cacheSize then
    { s with
      disk := s.cache.foldl (fun d p => insertA d p.1 p.2.transactions) s.disk,
      cache := [],
      cacheSize := 0 }
  else s

/-- insert, src/transaction_cache.rs lines 138-152: insert into the owning
partition's map (creating the partition, with the default loaded = false,
when absent), add one to the resident counter, return the value previously
in the in-memory partition, then run the spill policy. -/
def TransactionCache.insert (s : TransactionCache) (txid : Nat) (t : Transaction) :
    Option Transaction × TransactionCache :=
  let key := s.cacheKey txid
  let line0 := (findA s.cache key).getD CacheLine.dflt
  let val := findA line0.transactions txid
  let s1 : TransactionCache :=
    { s with
      cache := insertA s.cache key (CacheLine.mk line0.loaded (insertA line0.transactions txid t)),
      cacheSize := s.cacheSize + 1 }
  (val, s1.storeCache)

/-- The abstract map a TransactionCache denotes: what get(txid) would return
without mutating anything — the in-memory line when loaded, otherwise the
on-disk partition merged over the in-memory line (disk entries win,
matching HashMap::extend in load_cache). -/
def TransactionCache.viewT (s : TransactionCache) (txid : Nat) : Option Transaction :=
  let key := s.cacheKey txid
  match findA s.cache key with
  | some line =>
    if line.loaded then findA line.transactions txid
    else
      match findA s.disk key with
      | some stored =>
        match findA stored txid with
        | some v => some v
        | none => findA line.transactions txid
      | none => findA line.transactions txid
  | none =>
    match findA s.disk key with
    | some stored => findA stored txid
    | none => none

/-! ### Client (src/client.rs) -/

abbrev Res := Except String Unit

structure Client where
  clientId : Nat
  available : Amount
  held : Amount
  total : Amount
  locked : Bool
  processed : TransactionCache
  disputed : TransactionCache
deriving Repr

/-- Client::new / new_with_cache, src/client.rs lines 24-46. -/
def Client.new (cid limit lineSize : Nat) : Client :=
  Client.mk cid 0 0 0 false (TransactionCache.new limit lineSize)
    (TransactionCache.new limit lineSize)

/-- can_process, src/client.rs lines 48-53. -/
def Client.canProcess (c : Client) : Res :=
  if c.locked then Except.error "Account locked" else Except.ok ()

/-- deposit, src/client.rs lines 54-67. -/
def Client.deposit (c : Client) (t : Transaction) : Res × Client :=
  match c.canProcess with
  | .error e => (.error e, c)
  | .ok _ =>
    match t with
    | .deposit _ txid amount =>
      let r := c.processed.containsKey txid
      let c1 := { c with processed := r.2 }
      if r.1 then (.error "Transaction already processed", c1)
      else
        let c2 := { c1 with available := c1.available + amount, total := c1.total + amount }
        let ri := c2.processed.insert txid t
        (.ok (), { c2 with processed := ri.2 })
    | _ => (.error "Wrong transaction type, expected deposit", c)

/-- withdraw, src/client.rs lines 69-88. -/
def Client.withdraw (c : Client) (t : Transaction) : Res × Client :=
  match c.canProcess with
  | .error e => (.error e, c)
  | .ok _ =>
    match t with
    | .withdrawal _ txid amount =>
      let r := c.processed.containsKey txid
      let c1 := { c with processed := r.2 }
      if r.1 then (.error "Transaction already processed", c1)
      else
        if amount ≤ c1.available then
          let c2 := { c1 with available := c1.available - amount, total := c1.total - amount }
          let ri := c2.processed.insert txid t
          (.ok (), { c2 with processed := ri.2 })
        else (.error "Insufficient funds", c1)
    | _ => (.error "Wrong transaction type, expected withdraw", c)

/-- dispute, src/client.rs lines 90-107: no can_process check; the record
is inserted into the disputed store under the id carried inside the
deposit. -/
def Client.dispute (c : Client) (txid : Nat) : Res × Client :=
  let r := c.disputed.containsKey txid
  let c1 := { c with disputed := r.2 }
  if r.1 then (.error "Transaction already processed", c1)
  else
    let g := c1.processed.get txid
    let c2 := { c1 with processed := g.2 }
    match g.1 with
    | none => (.error "Could not find disputed transaction", c2)
    | some dt =>
      match dt with
      | .deposit _ txid2 amount =>
        let c3 := { c2 with available := c2.available - amount, held := c2.held + amount }
        let ri := c3.disputed.insert txid2 dt
        (.ok (), { c3 with disputed := ri.2 })
      | _ => (.error "Wrong transaction type", c2)

/-- resolve, src/client.rs lines 109-122. -/
def Client.resolve (c : Client) (txid : Nat) : Res × Client :=
  match c.canProcess with
  | .error e => (.error e, c)
  | .ok _ =>
    let r := c.disputed.remove txid
    let c1 := { c with disputed := r.2 }
    match r.1 with
    | none => (.error "Could not find disputed transaction", c1)
    | some dt =>
      match dt with
      | .deposit _ _ amount =>
        (.ok (), { c1 with available := c1.available + amount, held := c1.held - amount })
      | _ => (.error "Wrong transaction type, expected resolve", c1)

/-- chargeback, src/client.rs lines 124-139. -/
def Client.chargeback (c : Client) (txid : Nat) : Res × Client :=
  match c.canProcess with
  | .error e => (.error e, c)
  | .ok _ =>
    let r := c.disputed.remove txid
    let c1 := { c with disputed := r.2 }
    match r.1 with
    | none => (.error "Could not find disputed transaction", c1)
    | some dt =>
      match dt with
      | .deposit _ _ amount =>
        (.ok (), { c1 with locked := true, total := c1.total - amount, held := c1.held - amount })
      | _ => (.error "Wrong transaction type, expected resolve", c1)

/-- The five state-machine operations a client can receive. -/
inductive Op where
  | deposit (t : Transaction)
  | withdraw (t : Transaction)
  | dispute (txid : Nat)
  | resolve (txid : Nat)
  | chargeback (txid : Nat)

def Client.applyOp (c : Client) (o : Op) : Res × Client :=
  match o with
  | .deposit t => c.deposit t
  | .withdraw t => c.withdraw t
  | .dispute txid => c.dispute txid
  | .resolve txid => c.resolve txid
  | .chargeback txid => c.chargeback txid

def Client.applyOps (c : Client) (ops : List Op) : Client :=
  ops.foldl (fun acc o => (acc.applyOp o).2) c

/-- A client state is reachable when some operation sequence applied to a
fresh account produces it. -/
def Client.Reachable (c : Client) : Prop :=
  ∃ cid limit lineSize ops, c = (Client.new cid limit lineSize).applyOps ops

/-- The observable ledger state named by the spec: balances, lock flag and
the abstract contents of the two stores. -/
def Client.observe (c : Client) :
    Amount × Amount × Amount × Bool × (Nat → Option Transaction) × (Nat → Option Transaction) :=
  (c.available, c.held, c.total, c.locked,
   fun id => c.processed.viewT id, fun id => c.disputed.viewT id)

/-! ### Well-formedness of a cache state

Every store reachable through the Client API satisfies: association lists
have no duplicate keys, and a resident partition that is not marked loaded
has no on-disk file (the client always reads a partition before writing
it, so unloaded resident lines with stale files never arise). -/

structure CacheWF (s : TransactionCache) : Prop where
  nodupCache : NodupK s.cache
  nodupLines : ∀ k line, findA s.cache k = some line → NodupK line.transactions
  nodupDisk : ∀ k f, findA s.disk k = some f → NodupK f
  unloadedNoFile : ∀ k line, findA s.cache k = some line → line.loaded = false →
    findA s.disk k = none

theorem CacheWF_new (limit lineSize : Nat) : CacheWF (TransactionCache.new limit lineSize) := by
  constructor
  · simp [TransactionCache.new, NodupK]
  · intro k line hfind
    simp [TransactionCache.new, findA] at hfind
  · intro k f hfind
    simp [TransactionCache.new, findA] at hfind
  · intro k line hfind _
    simp [TransactionCache.new, findA] at hfind

/-! ### Cache lemmas -/

/-- What a single partition line denotes, given the disk. -/
def lineView (disk : List (Nat × List (Nat × Transaction))) (key : Nat) (line : CacheLine)
    (txid : Nat) : Option Transaction :=
  if line.loaded then findA line.transactions txid
  else
    match findA disk key with
    | some stored =>
      match findA stored txid with
      | some v => some v
      | none => findA line.transactions txid
    | none => findA line.transactions txid

theorem viewT_eq_lineView (s : TransactionCache) (txid : Nat) :
    s.viewT txid =
      lineView s.disk (s.cacheKey txid) ((findA s.cache (s.cacheKey txid)).getD CacheLine.dflt)
        txid := by
  cases hc : findA s.cache (s.cacheKey txid) with
  | some line => simp [TransactionCache.viewT, lineView, hc]
  | none =>
    cases hd : findA s.disk (s.cacheKey txid) with
    | some stored =>
      cases hf : findA stored txid <;>
        simp [TransactionCache.viewT, lineView, hc, hd, hf, findA, CacheLine.dflt]
    | none => simp [TransactionCache.viewT, lineView, hc, hd, findA, CacheLine.dflt]

theorem loadLine_findA (disk : List (Nat × List (Nat × Transaction))) (key : Nat)
    (line : CacheLine) (txid : Nat)
    (hd : ∀ f, findA disk key = some f → NodupK f) :
    findA (TransactionCache.loadLine disk key line).1.transactions txid =
      lineView disk key line txid := by
  unfold TransactionCache.loadLine lineView
  by_cases hl : line.loaded = true
  · simp [hl]
  · simp only [if_neg hl]
    cases hdisk : findA disk key with
    | some stored =>
      simp only [hdisk]
      rw [findA_extendA line.transactions txid (hd stored hdisk)]
      cases hf : findA stored txid <;> simp [hf]
    | none => simp [hdisk]

theorem loadLine_not_loaded (disk : List (Nat × List (Nat × Transaction))) (key : Nat)
    (line : CacheLine)
    (h : (TransactionCache.loadLine disk key line).1.loaded = false) :
    (TransactionCache.loadLine disk key line).1 = line ∧ findA disk key = none := by
  unfold TransactionCache.loadLine at h ⊢
  by_cases hl : line.loaded
  · simp [hl] at h
  · cases hdisk : findA disk key with
    | some stored => simp [hl, hdisk] at h
    | none => simp [hl, hdisk]

theorem loadLine_lineView (disk : List (Nat × List (Nat × Transaction))) (key : Nat)
    (line : CacheLine) (txid : Nat)
    (hd : ∀ f, findA disk key = some f → NodupK f) :
    lineView disk key (TransactionCache.loadLine disk key line).1 txid =
      lineView disk key line txid := by
  cases hres : (TransactionCache.loadLine disk key line).1.loaded with
  | false =>
    rcases loadLine_not_loaded disk key line hres with ⟨heq, _⟩
    rw [heq]
  | true =>
    have h1 : lineView disk key (TransactionCache.loadLine disk key line).1 txid
        = findA (TransactionCache.loadLine disk key line).1.transactions txid := by
      unfold lineView
      rw [if_pos hres]
    rw [h1, loadLine_findA disk key line txid hd]

theorem loadLine_nodup (disk : List (Nat × List (Nat × Transaction))) (key : Nat)
    (line : CacheLine)
    (hline : NodupK line.transactions)
    (hd : ∀ f, findA disk key = some f → NodupK f) :
    NodupK (TransactionCache.loadLine disk key line).1.transactions := by
  unfold TransactionCache.loadLine
  by_cases hl : line.loaded
  · simpa [hl]
  · cases hdisk : findA disk key with
    | some stored => simpa [hl, hdisk] using NodupK_extendA hline
    | none => simpa [hl, hdisk]

theorem touch_snd_fields (s : TransactionCache) (key : Nat) :
    (s.touch key).2.cacheSizeLimit = s.cacheSizeLimit ∧
    (s.touch key).2.cacheLineSize = s.cacheLineSize ∧
    (s.touch key).2.disk = s.disk := by
  exact ⟨rfl, rfl, rfl⟩

theorem touch_line_present (s : TransactionCache) (key : Nat) :
    findA (s.touch key).2.cache key = some (s.touch key).1 := by
  simp [TransactionCache.touch, findA_insertA]

theorem viewT_touch (s : TransactionCache) (key txid : Nat) (hwf : CacheWF s) :
    (s.touch key).2.viewT txid = s.viewT txid := by
  rw [viewT_eq_lineView, viewT_eq_lineView]
  have hkey : (s.touch key).2.cacheKey txid = s.cacheKey txid := rfl
  have hdisk : (s.touch key).2.disk = s.disk := rfl
  have hcache : (s.touch key).2.cache = insertA s.cache key (s.touch key).1 := rfl
  rw [hkey, hdisk, hcache, findA_insertA]
  by_cases hk : key = s.cacheKey txid
  · rw [if_pos hk, Option.getD_some, ← hk]
    exact loadLine_lineView s.disk key ((findA s.cache key).getD CacheLine.dflt) txid
      (fun f hf => hwf.nodupDisk key f hf)
  · rw [if_neg hk]

theorem touch_fst_findA (s : TransactionCache) (txid : Nat) (hwf : CacheWF s) :
    findA (s.touch (s.cacheKey txid)).1.transactions txid = s.viewT txid := by
  rw [viewT_eq_lineView]
  exact loadLine_findA s.disk (s.cacheKey txid)
    ((findA s.cache (s.cacheKey txid)).getD CacheLine.dflt) txid
    (fun f hf => hwf.nodupDisk (s.cacheKey txid) f hf)

theorem CacheWF_touch (s : TransactionCache) (key : Nat) (hwf : CacheWF s) :
    CacheWF (s.touch key).2 := by
  have hnodup0 : NodupK ((findA s.cache key).getD CacheLine.dflt).transactions := by
    cases hc : findA s.cache key with
    | some line => simpa using hwf.nodupLines key line hc
    | none => simp [CacheLine.dflt, NodupK]
  constructor
  · simpa [TransactionCache.touch] using NodupK_insertA hwf.nodupCache key _
  · intro k line hfind
    simp only [TransactionCache.touch] at hfind
    rw [findA_insertA] at hfind
    by_cases hk : key = k
    · simp only [if_pos hk, Option.some.injEq] at hfind
      rw [← hfind]
      exact loadLine_nodup s.disk key _ hnodup0 (fun f hf => hwf.nodupDisk key f hf)
    · rw [if_neg hk] at hfind
      exact hwf.nodupLines k line hfind
  · intro k f hfind
    simp only [TransactionCache.touch] at hfind
    exact hwf.nodupDisk k f hfind
  · intro k line hfind hload
    simp only [TransactionCache.touch] at hfind ⊢
    rw [findA_insertA] at hfind
    by_cases hk : key = k
    · simp only [if_pos hk, Option.some.injEq] at hfind
      rw [← hfind] at hload
      rcases loadLine_not_loaded s.disk key _ hload with ⟨_, hdisk⟩
      rw [← hk]
      exact hdisk
    · rw [if_neg hk] at hfind
      exact hwf.unloadedNoFile k line hfind hload

/-- viewT and CacheWF ignore the resident counter and depend on the line at a
key only through its loaded flag and findA on its transactions. -/
theorem viewT_set_line (s : TransactionCache) (key : Nat) (line newline : CacheLine) (n : Nat)
    (hfind : findA s.cache key = some line)
    (hload : newline.loaded = line.loaded)
    (txid2 : Nat)
    (hsame : findA newline.transactions txid2 = findA line.transactions txid2) :
    TransactionCache.viewT { s with cache := insertA s.cache key newline, cacheSize := n }
      txid2 = s.viewT txid2 := by
  rw [viewT_eq_lineView, viewT_eq_lineView]
  have hkey : ({ s with cache := insertA s.cache key newline, cacheSize := n }
      : TransactionCache).cacheKey txid2 = s.cacheKey txid2 := rfl
  rw [hkey]
  have hdisk : ({ s with cache := insertA s.cache key newline, cacheSize := n }
      : TransactionCache).disk = s.disk := rfl
  rw [hdisk]
  have hcache : ({ s with cache := insertA s.cache key newline, cacheSize := n }
      : TransactionCache).cache = insertA s.cache key newline := rfl
  rw [hcache, findA_insertA]
  by_cases hk : key = s.cacheKey txid2
  · rw [if_pos hk, ← hk, hfind]
    simp only [Option.getD_some]
    unfold lineView
    rw [hload, hsame]
  · rw [if_neg hk]

/-- Writing every resident partition to disk (the loop of store_cache). -/
theorem findA_storeDisk (cache : List (Nat × CacheLine))
    (disk : List (Nat × List (Nat × Transaction))) (h : NodupK cache) (k : Nat) :
    findA (cache.foldl (fun d p => insertA d p.1 p.2.transactions) disk) k =
      match findA cache k with
      | some line => some line.transactions
      | none => findA disk k := by
  induction cache generalizing disk with
  | nil => simp [findA]
  | cons q rest ih =>
    have h2 : (q.1 :: rest.map Prod.fst).Nodup := h
    have hn : NodupK rest := (List.nodup_cons.mp h2).2
    have hq : q.1 ∉ rest.map Prod.fst := (List.nodup_cons.mp h2).1
    simp only [List.foldl_cons]
    rw [ih (insertA disk q.1 q.2.transactions) hn]
    by_cases hk : q.1 = k
    · have hnone : findA rest k = none :=
        findA_eq_none_of_not_mem_keys (by rw [← hk]; exact hq)
      rw [hnone]
      simp [findA, hk, findA_insertA]
    · cases hfind : findA rest k with
      | some line => simp [findA, hfind, hk]
      | none => simp [findA, hfind, hk, findA_insertA, findA_eraseA]

theorem CacheWF_storeCache (s : TransactionCache) (hwf : CacheWF s) :
    CacheWF s.storeCache := by
  unfold TransactionCache.storeCache
  by_cases hflush : s.cacheSizeLimit < s.cacheSize
  · rw [if_pos hflush]
    constructor
    · simp [NodupK]
    · intro k line hfind
      simp [findA] at hfind
    · intro k f hfind
      simp only at hfind
      rw [findA_storeDisk s.cache s.disk hwf.nodupCache k] at hfind
      cases hc : findA s.cache k with
      | some line =>
        rw [hc] at hfind
        simp only [Option.some.injEq] at hfind
        rw [← hfind]
        exact hwf.nodupLines k line hc
      | none =>
        rw [hc] at hfind
        exact hwf.nodupDisk k f hfind
    · intro k line hfind _
      simp [findA] at hfind
  · rw [if_neg hflush]
    exact hwf

theorem viewT_storeCache (s : TransactionCache) (txid : Nat) (hwf : CacheWF s) :
    s.storeCache.viewT txid = s.viewT txid := by
  unfold TransactionCache.storeCache
  by_cases hflush : s.cacheSizeLimit < s.cacheSize
  · rw [if_pos hflush]
    rw [viewT_eq_lineView, viewT_eq_lineView]
    have hkey : ({ s with
        disk := s.cache.foldl (fun d p => insertA d p.1 p.2.transactions) s.disk,
        cache := [], cacheSize := 0 } : TransactionCache).cacheKey txid = s.cacheKey txid := rfl
    rw [hkey]
    have hfa : findA ([] : List (Nat × CacheLine)) (s.cacheKey txid) = none := rfl
    simp only [hfa, Option.getD_none]
    unfold lineView CacheLine.dflt
    simp only [Bool.false_eq_true, if_false]
    rw [findA_storeDisk s.cache s.disk hwf.nodupCache (s.cacheKey txid)]
    cases hc : findA s.cache (s.cacheKey txid) with
    | some line =>
      simp only [Option.getD_some]
      by_cases hl : line.loaded = true
      · rw [if_pos hl]
        cases hf : findA line.transactions txid <;> simp [findA]
      · rw [if_neg hl]
        have hdisk : findA s.disk (s.cacheKey txid) = none :=
          hwf.unloadedNoFile (s.cacheKey txid) line hc (Bool.not_eq_true line.loaded |>.mp hl)
        rw [hdisk]
        cases hf : findA line.transactions txid <;> simp [findA]
    | none =>
      simp only [Option.getD_none]
      cases hd : findA s.disk (s.cacheKey txid) <;> simp [findA]
  · rw [if_neg hflush]

theorem storeCache_fields (s : TransactionCache) :
    s.storeCache.cacheSizeLimit = s.cacheSizeLimit ∧
    s.storeCache.cacheLineSize = s.cacheLineSize := by
  unfold TransactionCache.storeCache
  by_cases hflush : s.cacheSizeLimit < s.cacheSize
  · rw [if_pos hflush]
    exact ⟨rfl, rfl⟩
  · rw [if_neg hflush]
    exact ⟨rfl, rfl⟩

/-! insert lemmas.  The client only ever inserts into a partition it has
just read (contains_key or get on the same id precedes every insert), so
the owning line is resident; under that hypothesis insert behaves as a
pointwise update of the abstract map. -/

/-- The pre-flush state of insert when the owning line is resident. -/
def insertPre (s : TransactionCache) (txid : Nat) (t : Transaction) (line0 : CacheLine) :
    TransactionCache :=
  { s with
    cache := insertA s.cache (s.cacheKey txid)
      (CacheLine.mk line0.loaded (insertA line0.transactions txid t)),
    cacheSize := s.cacheSize + 1 }

theorem insert_eq_insertPre (s : TransactionCache) (txid : Nat) (t : Transaction)
    {line0 : CacheLine} (hpresent : findA s.cache (s.cacheKey txid) = some line0) :
    s.insert txid t = (findA line0.transactions txid, (insertPre s txid t line0).storeCache) := by
  simp only [TransactionCache.insert, insertPre, hpresent, Option.getD_some]

theorem CacheWF_insertPre (s : TransactionCache) (txid : Nat) (t : Transaction)
    (hwf : CacheWF s) {line0 : CacheLine}
    (hpresent : findA s.cache (s.cacheKey txid) = some line0) :
    CacheWF (insertPre s txid t line0) := by
  constructor
  · exact NodupK_insertA hwf.nodupCache _ _
  · intro k line hfind
    simp only [insertPre] at hfind
    rw [findA_insertA] at hfind
    by_cases hk : s.cacheKey txid = k
    · simp only [if_pos hk, Option.some.injEq] at hfind
      rw [← hfind]
      exact NodupK_insertA (hwf.nodupLines _ line0 hpresent) txid t
    · rw [if_neg hk] at hfind
      exact hwf.nodupLines k line hfind
  · intro k f hfind
    exact hwf.nodupDisk k f hfind
  · intro k line hfind hload
    simp only [insertPre] at hfind ⊢
    rw [findA_insertA] at hfind
    by_cases hk : s.cacheKey txid = k
    · simp only [if_pos hk, Option.some.injEq] at hfind
      rw [← hfind] at hload
      simp only at hload
      rw [← hk]
      exact hwf.unloadedNoFile (s.cacheKey txid) line0 hpresent hload
    · rw [if_neg hk] at hfind
      exact hwf.unloadedNoFile k line hfind hload

theorem CacheWF_insert (s : TransactionCache) (txid : Nat) (t : Transaction)
    (hwf : CacheWF s) {line0 : CacheLine}
    (hpresent : findA s.cache (s.cacheKey txid) = some line0) :
    CacheWF (s.insert txid t).2 := by
  rw [insert_eq_insertPre s txid t hpresent]
  exact CacheWF_storeCache _ (CacheWF_insertPre s txid t hwf hpresent)

theorem viewT_insertPre_self (s : TransactionCache) (txid : Nat) (t : Transaction)
    (hwf : CacheWF s) {line0 : CacheLine}
    (hpresent : findA s.cache (s.cacheKey txid) = some line0) :
    (insertPre s txid t line0).viewT txid = some t := by
  rw [viewT_eq_lineView]
  have hkey : (insertPre s txid t line0).cacheKey txid = s.cacheKey txid := rfl
  have hdisk : (insertPre s txid t line0).disk = s.disk := rfl
  have hcache : (insertPre s txid t line0).cache = insertA s.cache (s.cacheKey txid)
      (CacheLine.mk line0.loaded (insertA line0.transactions txid t)) := rfl
  rw [hkey, hdisk, hcache, findA_insertA, if_pos rfl, Option.getD_some]
  unfold lineView
  cases hl : line0.loaded with
  | true => simp [findA_insertA]
  | false =>
    have hdn : findA s.disk (s.cacheKey txid) = none :=
      hwf.unloadedNoFile (s.cacheKey txid) line0 hpresent hl
    simp [hdn, findA_insertA]

theorem viewT_insertPre_other (s : TransactionCache) (txid : Nat) (t : Transaction)
    {line0 : CacheLine}
    (hpresent : findA s.cache (s.cacheKey txid) = some line0)
    (txid2 : Nat) (hne : txid2 ≠ txid) :
    (insertPre s txid t line0).viewT txid2 = s.viewT txid2 := by
  unfold insertPre
  exact viewT_set_line s (s.cacheKey txid) line0
    (CacheLine.mk line0.loaded (insertA line0.transactions txid t)) (s.cacheSize + 1)
    hpresent rfl txid2
    (by
      show findA (insertA line0.transactions txid t) txid2 = findA line0.transactions txid2
      rw [findA_insertA, if_neg (fun h => hne h.symm)])

theorem viewT_insert_self (s : TransactionCache) (txid : Nat) (t : Transaction)
    (hwf : CacheWF s) {line0 : CacheLine}
    (hpresent : findA s.cache (s.cacheKey txid) = some line0) :
    (s.insert txid t).2.viewT txid = some t := by
  rw [insert_eq_insertPre s txid t hpresent]
  rw [viewT_storeCache _ _ (CacheWF_insertPre s txid t hwf hpresent)]
  exact viewT_insertPre_self s txid t hwf hpresent

theorem viewT_insert_other (s : TransactionCache) (txid : Nat) (t : Transaction)
    (hwf : CacheWF s) {line0 : CacheLine}
    (hpresent : findA s.cache (s.cacheKey txid) = some line0)
    (txid2 : Nat) (hne : txid2 ≠ txid) :
    (s.insert txid t).2.viewT txid2 = s.viewT txid2 := by
  rw [insert_eq_insertPre s txid t hpresent]
  rw [viewT_storeCache _ _ (CacheWF_insertPre s txid t hwf hpresent)]
  exact viewT_insertPre_other s txid t hpresent txid2 hne

theorem insert_fields (s : TransactionCache) (txid : Nat) (t : Transaction) :
    (s.insert txid t).2.cacheSizeLimit = s.cacheSizeLimit ∧
    (s.insert txid t).2.cacheLineSize = s.cacheLineSize := by
  unfold TransactionCache.insert
  simp only
  constructor
  · exact (storeCache_fields _).1
  · exact (storeCache_fields _).2

/-! remove lemmas -/

theorem remove_fst (s : TransactionCache) (txid : Nat) (hwf : CacheWF s) :
    (s.remove txid).1 = s.viewT txid := by
  unfold TransactionCache.remove
  exact touch_fst_findA s txid hwf

/-- Overwriting the line at a key (the in-place mutation done by remove). -/
def setLine (u : TransactionCache) (key : Nat) (newline : CacheLine) : TransactionCache :=
  { u with cache := insertA u.cache key newline }

theorem remove_snd_eq (s : TransactionCache) (txid : Nat) :
    (s.remove txid).2 =
      setLine (s.touch (s.cacheKey txid)).2 (s.cacheKey txid)
        (CacheLine.mk (s.touch (s.cacheKey txid)).1.loaded
          (eraseA (s.touch (s.cacheKey txid)).1.transactions txid)) := rfl

theorem CacheWF_setLine (u : TransactionCache) (key : Nat) {line : CacheLine}
    (newline : CacheLine) (hwf : CacheWF u)
    (hfind : findA u.cache key = some line)
    (hload : newline.loaded = line.loaded)
    (hnodup : NodupK newline.transactions) :
    CacheWF (setLine u key newline) := by
  constructor
  · exact NodupK_insertA hwf.nodupCache _ _
  · intro k l2 hfind2
    simp only [setLine] at hfind2
    rw [findA_insertA] at hfind2
    by_cases hk : key = k
    · simp only [if_pos hk, Option.some.injEq] at hfind2
      rw [← hfind2]
      exact hnodup
    · rw [if_neg hk] at hfind2
      exact hwf.nodupLines k l2 hfind2
  · intro k f hfind2
    exact hwf.nodupDisk k f hfind2
  · intro k l2 hfind2 hl2
    simp only [setLine] at hfind2 ⊢
    rw [findA_insertA] at hfind2
    by_cases hk : key = k
    · simp only [if_pos hk, Option.some.injEq] at hfind2
      rw [← hfind2] at hl2
      rw [hload] at hl2
      rw [← hk]
      exact hwf.unloadedNoFile key line hfind hl2
    · rw [if_neg hk] at hfind2
      exact hwf.unloadedNoFile k l2 hfind2 hl2

theorem viewT_setLine_other (u : TransactionCache) (key : Nat) {line : CacheLine}
    (newline : CacheLine)
    (hfind : findA u.cache key = some line)
    (hload : newline.loaded = line.loaded)
    (txid2 : Nat)
    (hsame : findA newline.transactions txid2 = findA line.transactions txid2) :
    (setLine u key newline).viewT txid2 = u.viewT txid2 := by
  unfold setLine
  exact viewT_set_line u key line newline u.cacheSize hfind hload txid2 hsame

theorem viewT_setLine_erase_self (u : TransactionCache) (txid : Nat) (line : CacheLine)
    (hfind : findA u.cache (u.cacheKey txid) = some line)
    (hnofile : line.loaded = false → findA u.disk (u.cacheKey txid) = none) :
    (setLine u (u.cacheKey txid)
      (CacheLine.mk line.loaded (eraseA line.transactions txid))).viewT txid = none := by
  unfold setLine
  rw [viewT_eq_lineView]
  have hkey : ({ u with cache := insertA u.cache (u.cacheKey txid) (CacheLine.mk line.loaded (eraseA line.transactions txid)) } : TransactionCache).cacheKey txid = u.cacheKey txid := rfl
  have hdisk : ({ u with cache := insertA u.cache (u.cacheKey txid) (CacheLine.mk line.loaded (eraseA line.transactions txid)) } : TransactionCache).disk = u.disk := rfl
  have hcache : ({ u with cache := insertA u.cache (u.cacheKey txid) (CacheLine.mk line.loaded (eraseA line.transactions txid)) } : TransactionCache).cache = insertA u.cache (u.cacheKey txid) (CacheLine.mk line.loaded (eraseA line.transactions txid)) := rfl
  rw [hkey, hdisk, hcache, findA_insertA, if_pos rfl, Option.getD_some]
  unfold lineView
  cases hl : line.loaded with
  | true => simp [findA_eraseA]
  | false =>
    rw [hnofile hl]
    simp [findA_eraseA]

theorem CacheWF_remove (s : TransactionCache) (txid : Nat) (hwf : CacheWF s) :
    CacheWF (s.remove txid).2 := by
  rw [remove_snd_eq]
  have hwt : CacheWF (s.touch (s.cacheKey txid)).2 := CacheWF_touch s (s.cacheKey txid) hwf
  have hline := touch_line_present s (s.cacheKey txid)
  exact CacheWF_setLine (s.touch (s.cacheKey txid)).2 (s.cacheKey txid) _ hwt hline rfl
    (NodupK_eraseA (hwt.nodupLines _ _ hline) txid)

theorem viewT_remove_self (s : TransactionCache) (txid : Nat) (hwf : CacheWF s) :
    (s.remove txid).2.viewT txid = none := by
  rw [remove_snd_eq]
  have hwt : CacheWF (s.touch (s.cacheKey txid)).2 := CacheWF_touch s (s.cacheKey txid) hwf
  have hline := touch_line_present s (s.cacheKey txid)
  exact viewT_setLine_erase_self (s.touch (s.cacheKey txid)).2 txid (s.touch (s.cacheKey txid)).1
    hline (fun hl => hwt.unloadedNoFile (s.cacheKey txid) _ hline hl)

theorem viewT_remove_other (s : TransactionCache) (txid : Nat) (hwf : CacheWF s)
    (txid2 : Nat) (hne : txid2 ≠ txid) :
    (s.remove txid).2.viewT txid2 = s.viewT txid2 := by
  rw [remove_snd_eq]
  have hline := touch_line_present s (s.cacheKey txid)
  have hstep := viewT_setLine_other (s.touch (s.cacheKey txid)).2 (s.cacheKey txid)
    (CacheLine.mk (s.touch (s.cacheKey txid)).1.loaded
      (eraseA (s.touch (s.cacheKey txid)).1.transactions txid))
    hline rfl txid2
    (by
      show findA (eraseA (s.touch (s.cacheKey txid)).1.transactions txid) txid2
        = findA (s.touch (s.cacheKey txid)).1.transactions txid2
      rw [findA_eraseA, if_neg (fun h => hne h.symm)])
  rw [hstep]
  exact viewT_touch s (s.cacheKey txid) txid2 hwf

theorem remove_fields (s : TransactionCache) (txid : Nat) :
    (s.remove txid).2.cacheSizeLimit = s.cacheSizeLimit ∧
    (s.remove txid).2.cacheLineSize = s.cacheLineSize := ⟨rfl, rfl⟩

/-! get and contains_key lemmas -/

theorem get_fst (s : TransactionCache) (txid : Nat) (hwf : CacheWF s) :
    (s.get txid).1 = s.viewT txid := by
  unfold TransactionCache.get
  exact touch_fst_findA s txid hwf

theorem get_snd (s : TransactionCache) (txid : Nat) :
    (s.get txid).2 = (s.touch (s.cacheKey txid)).2 := rfl

theorem containsKey_fst (s : TransactionCache) (txid : Nat) (hwf : CacheWF s) :
    (s.containsKey txid).1 = (s.viewT txid).isSome :=
  congrArg Option.isSome (touch_fst_findA s txid hwf)

theorem containsKey_snd (s : TransactionCache) (txid : Nat) :
    (s.containsKey txid).2 = (s.touch (s.cacheKey txid)).2 := rfl

/-! ### Predicates over every stored entry -/

/-- P holds of every entry resident in memory or spilled to disk. -/
def EntryProp (P : Nat → Transaction → Prop) (s : TransactionCache) : Prop :=
  (∀ k line, findA s.cache k = some line → ∀ p ∈ line.transactions, P p.1 p.2) ∧
  (∀ k f, findA s.disk k = some f → ∀ p ∈ f, P p.1 p.2)

theorem EntryProp_new (P : Nat → Transaction → Prop) (limit lineSize : Nat) :
    EntryProp P (TransactionCache.new limit lineSize) := by
  constructor
  · intro k line hfind
    simp [TransactionCache.new, findA] at hfind
  · intro k f hfind
    simp [TransactionCache.new, findA] at hfind

theorem EntryProp_viewT {P : Nat → Transaction → Prop} {s : TransactionCache}
    (h : EntryProp P s) {txid : Nat} {t : Transaction}
    (hv : s.viewT txid = some t) : P txid t := by
  rw [viewT_eq_lineView] at hv
  cases hc : findA s.cache (s.cacheKey txid) with
  | some line =>
    rw [hc, Option.getD_some] at hv
    unfold lineView at hv
    by_cases hl : line.loaded = true
    · rw [if_pos hl] at hv
      exact h.1 _ line hc (txid, t) (findA_mem hv)
    · rw [if_neg hl] at hv
      cases hd : findA s.disk (s.cacheKey txid) with
      | some stored =>
        rw [hd] at hv
        dsimp only at hv
        cases hf : findA stored txid with
        | some v =>
          rw [hf] at hv
          simp only [Option.some.injEq] at hv
          rw [← hv]
          exact h.2 _ stored hd (txid, v) (findA_mem hf)
        | none =>
          rw [hf] at hv
          exact h.1 _ line hc (txid, t) (findA_mem hv)
      | none =>
        rw [hd] at hv
        dsimp only at hv
        exact h.1 _ line hc (txid, t) (findA_mem hv)
  | none =>
    rw [hc, Option.getD_none] at hv
    simp only [lineView, CacheLine.dflt, Bool.false_eq_true, if_false] at hv
    cases hd : findA s.disk (s.cacheKey txid) with
    | some stored =>
      rw [hd] at hv
      dsimp only at hv
      cases hf : findA stored txid with
      | some v =>
        rw [hf] at hv
        simp only [Option.some.injEq] at hv
        rw [← hv]
        exact h.2 _ stored hd (txid, v) (findA_mem hf)
      | none =>
        rw [hf] at hv
        simp [findA] at hv
    | none =>
      rw [hd] at hv
      dsimp only at hv
      simp [findA] at hv

theorem EntryProp_loadLine {P : Nat → Transaction → Prop}
    (disk : List (Nat × List (Nat × Transaction))) (key : Nat) (line : CacheLine)
    (hline : ∀ p ∈ line.transactions, P p.1 p.2)
    (hdisk : ∀ f, findA disk key = some f → ∀ p ∈ f, P p.1 p.2) :
    ∀ p ∈ (TransactionCache.loadLine disk key line).1.transactions, P p.1 p.2 := by
  unfold TransactionCache.loadLine
  by_cases hl : line.loaded = true
  · simp only [if_pos hl]
    exact hline
  · simp only [if_neg hl]
    cases hd : findA disk key with
    | some stored =>
      simp only
      intro p hp
      rcases mem_extendA hp with hmem | hmem
      · exact hline p hmem
      · exact hdisk stored hd p hmem
    | none =>
      simp only
      exact hline

theorem EntryProp_touch {P : Nat → Transaction → Prop} (s : TransactionCache) (key : Nat)
    (h : EntryProp P s) : EntryProp P (s.touch key).2 := by
  have hline0 : ∀ p ∈ ((findA s.cache key).getD CacheLine.dflt).transactions, P p.1 p.2 := by
    cases hc : findA s.cache key with
    | some line =>
      simp only [Option.getD_some]
      exact h.1 key line hc
    | none =>
      simp only [Option.getD_none, CacheLine.dflt]
      intro p hp
      exact absurd hp (List.not_mem_nil p)
  constructor
  · intro k line hfind
    have hcache : (s.touch key).2.cache = insertA s.cache key (s.touch key).1 := rfl
    rw [hcache, findA_insertA] at hfind
    by_cases hk : key = k
    · simp only [if_pos hk, Option.some.injEq] at hfind
      rw [← hfind]
      exact EntryProp_loadLine s.disk key _ hline0 (fun f hf => h.2 key f hf)
    · rw [if_neg hk] at hfind
      exact h.1 k line hfind
  · intro k f hfind
    exact h.2 k f hfind

theorem EntryProp_storeCache {P : Nat → Transaction → Prop} (s : TransactionCache)
    (hwf : CacheWF s) (h : EntryProp P s) : EntryProp P s.storeCache := by
  unfold TransactionCache.storeCache
  by_cases hflush : s.cacheSizeLimit < s.cacheSize
  · rw [if_pos hflush]
    constructor
    · intro k line hfind
      simp [findA] at hfind
    · intro k f hfind
      simp only at hfind
      rw [findA_storeDisk s.cache s.disk hwf.nodupCache k] at hfind
      cases hc : findA s.cache k with
      | some line =>
        rw [hc] at hfind
        simp only [Option.some.injEq] at hfind
        rw [← hfind]
        exact h.1 k line hc
      | none =>
        rw [hc] at hfind
        exact h.2 k f hfind
  · rw [if_neg hflush]
    exact h

theorem EntryProp_insert {P : Nat → Transaction → Prop} (s : TransactionCache)
    (txid : Nat) (t : Transaction) (hwf : CacheWF s) {line0 : CacheLine}
    (hpresent : findA s.cache (s.cacheKey txid) = some line0)
    (h : EntryProp P s) (hP : P txid t) :
    EntryProp P (s.insert txid t).2 := by
  rw [insert_eq_insertPre s txid t hpresent]
  apply EntryProp_storeCache _ (CacheWF_insertPre s txid t hwf hpresent)
  constructor
  · intro k line hfind
    simp only [insertPre] at hfind
    rw [findA_insertA] at hfind
    by_cases hk : s.cacheKey txid = k
    · simp only [if_pos hk, Option.some.injEq] at hfind
      rw [← hfind]
      intro p hp
      rcases mem_insertA hp with hmem | hmem
      · rw [hmem]
        exact hP
      · exact h.1 _ line0 hpresent p hmem
    · rw [if_neg hk] at hfind
      exact h.1 k line hfind
  · intro k f hfind
    exact h.2 k f hfind

theorem EntryProp_remove {P : Nat → Transaction → Prop} (s : TransactionCache)
    (txid : Nat) (h : EntryProp P s) : EntryProp P (s.remove txid).2 := by
  have ht : EntryProp P (s.touch (s.cacheKey txid)).2 := EntryProp_touch s _ h
  rw [remove_snd_eq]
  constructor
  · intro k line hfind
    simp only [setLine] at hfind
    rw [findA_insertA] at hfind
    by_cases hk : s.cacheKey txid = k
    · simp only [if_pos hk, Option.some.injEq] at hfind
      rw [← hfind]
      intro p hp
      have hp2 : p ∈ (s.touch (s.cacheKey txid)).1.transactions := mem_eraseA hp
      exact ht.1 _ _ (touch_line_present s (s.cacheKey txid)) p hp2
    · rw [if_neg hk] at hfind
      exact ht.1 k line hfind
  · intro k f hfind
    exact ht.2 k f hfind

/-! ### Client operation branch equations -/

theorem deposit_locked (c : Client) (t : Transaction) (h : c.locked = true) :
    c.deposit t = (.error "Account locked", c) := by
  unfold Client.deposit Client.canProcess
  rw [h]
  simp

theorem withdraw_locked (c : Client) (t : Transaction) (h : c.locked = true) :
    c.withdraw t = (.error "Account locked", c) := by
  unfold Client.withdraw Client.canProcess
  rw [h]
  simp

theorem resolve_locked (c : Client) (txid : Nat) (h : c.locked = true) :
    c.resolve txid = (.error "Account locked", c) := by
  unfold Client.resolve Client.canProcess
  rw [h]
  simp

theorem chargeback_locked (c : Client) (txid : Nat) (h : c.locked = true) :
    c.chargeback txid = (.error "Account locked", c) := by
  unfold Client.chargeback Client.canProcess
  rw [h]
  simp

theorem deposit_eq_dup (c : Client) (cid txid : Nat) (a : Amount)
    (hlock : c.locked = false)
    (hdup : (c.processed.containsKey txid).1 = true) :
    c.deposit (.deposit cid txid a) =
      (.error "Transaction already processed",
       { c with processed := (c.processed.containsKey txid).2 }) := by
  unfold Client.deposit Client.canProcess
  rw [hlock]
  simp [hdup]

theorem deposit_eq_ok (c : Client) (cid txid : Nat) (a : Amount)
    (hlock : c.locked = false)
    (hdup : (c.processed.containsKey txid).1 = false) :
    c.deposit (.deposit cid txid a) =
      (.ok (),
       { c with
         available := c.available + a,
         total := c.total + a,
         processed := ((c.processed.containsKey txid).2.insert txid
           (Transaction.deposit cid txid a)).2 }) := by
  unfold Client.deposit Client.canProcess
  rw [hlock]
  simp [hdup]

theorem deposit_wrongType (c : Client) (t : Transaction)
    (hlock : c.locked = false)
    (ht : ∀ cid txid a, t ≠ Transaction.deposit cid txid a) :
    c.deposit t = (.error "Wrong transaction type, expected deposit", c) := by
  unfold Client.deposit Client.canProcess
  rw [hlock]
  cases t with
  | deposit cid txid a => exact absurd rfl (ht cid txid a)
  | withdrawal cid txid a => simp
  | dispute cid txid => simp
  | resolve cid txid => simp
  | chargeBack cid txid => simp
  | unknown => simp

theorem withdraw_eq_dup (c : Client) (cid txid : Nat) (a : Amount)
    (hlock : c.locked = false)
    (hdup : (c.processed.containsKey txid).1 = true) :
    c.withdraw (.withdrawal cid txid a) =
      (.error "Transaction already processed",
       { c with processed := (c.processed.containsKey txid).2 }) := by
  unfold Client.withdraw Client.canProcess
  rw [hlock]
  simp [hdup]

theorem withdraw_eq_insufficient (c : Client) (cid txid : Nat) (a : Amount)
    (hlock : c.locked = false)
    (hdup : (c.processed.containsKey txid).1 = false)
    (hfunds : ¬ a ≤ c.available) :
    c.withdraw (.withdrawal cid txid a) =
      (.error "Insufficient funds",
       { c with processed := (c.processed.containsKey txid).2 }) := by
  unfold Client.withdraw Client.canProcess
  rw [hlock]
  simp [hdup, hfunds]

theorem withdraw_eq_ok (c : Client) (cid txid : Nat) (a : Amount)
    (hlock : c.locked = false)
    (hdup : (c.processed.containsKey txid).1 = false)
    (hfunds : a ≤ c.available) :
    c.withdraw (.withdrawal cid txid a) =
      (.ok (),
       { c with
         available := c.available - a,
         total := c.total - a,
         processed := ((c.processed.containsKey txid).2.insert txid
           (Transaction.withdrawal cid txid a)).2 }) := by
  unfold Client.withdraw Client.canProcess
  rw [hlock]
  simp [hdup, hfunds]

theorem withdraw_wrongType (c : Client) (t : Transaction)
    (hlock : c.locked = false)
    (ht : ∀ cid txid a, t ≠ Transaction.withdrawal cid txid a) :
    c.withdraw t = (.error "Wrong transaction type, expected withdraw", c) := by
  unfold Client.withdraw Client.canProcess
  rw [hlock]
  cases t with
  | deposit cid txid a => simp
  | withdrawal cid txid a => exact absurd rfl (ht cid txid a)
  | dispute cid txid => simp
  | resolve cid txid => simp
  | chargeBack cid txid => simp
  | unknown => simp

theorem dispute_eq_already (c : Client) (txid : Nat)
    (hdup : (c.disputed.containsKey txid).1 = true) :
    c.dispute txid =
      (.error "Transaction already processed",
       { c with disputed := (c.disputed.containsKey txid).2 }) := by
  unfold Client.dispute
  simp [hdup]

theorem dispute_eq_notfound (c : Client) (txid : Nat)
    (hdup : (c.disputed.containsKey txid).1 = false)
    (hget : (c.processed.get txid).1 = none) :
    c.dispute txid =
      (.error "Could not find disputed transaction",
       { c with disputed := (c.disputed.containsKey txid).2,
                processed := (c.processed.get txid).2 }) := by
  unfold Client.dispute
  simp [hdup, hget]

theorem dispute_eq_deposit (c : Client) (txid : Nat) (c2 t2 : Nat) (a : Amount)
    (hdup : (c.disputed.containsKey txid).1 = false)
    (hget : (c.processed.get txid).1 = some (Transaction.deposit c2 t2 a)) :
    c.dispute txid =
      (.ok (),
       { c with
         available := c.available - a,
         held := c.held + a,
         processed := (c.processed.get txid).2,
         disputed := ((c.disputed.containsKey txid).2.insert t2
           (Transaction.deposit c2 t2 a)).2 }) := by
  unfold Client.dispute
  simp [hdup, hget]

theorem dispute_eq_wrongType (c : Client) (txid : Nat) (dt : Transaction)
    (hdup : (c.disputed.containsKey txid).1 = false)
    (hget : (c.processed.get txid).1 = some dt)
    (ht : ∀ cid txid2 a, dt ≠ Transaction.deposit cid txid2 a) :
    c.dispute txid =
      (.error "Wrong transaction type",
       { c with disputed := (c.disputed.containsKey txid).2,
                processed := (c.processed.get txid).2 }) := by
  unfold Client.dispute
  cases dt with
  | deposit cid txid2 a => exact absurd rfl (ht cid txid2 a)
  | withdrawal cid txid2 a => simp [hdup, hget]
  | dispute cid txid2 => simp [hdup, hget]
  | resolve cid txid2 => simp [hdup, hget]
  | chargeBack cid txid2 => simp [hdup, hget]
  | unknown => simp [hdup, hget]

theorem resolve_eq_notfound (c : Client) (txid : Nat)
    (hlock : c.locked = false)
    (hrem : (c.disputed.remove txid).1 = none) :
    c.resolve txid =
      (.error "Could not find disputed transaction",
       { c with disputed := (c.disputed.remove txid).2 }) := by
  unfold Client.resolve Client.canProcess
  rw [hlock]
  simp [hrem]

theorem resolve_eq_deposit (c : Client) (txid : Nat) (c2 t2 : Nat) (a : Amount)
    (hlock : c.locked = false)
    (hrem : (c.disputed.remove txid).1 = some (Transaction.deposit c2 t2 a)) :
    c.resolve txid =
      (.ok (),
       { c with
         available := c.available + a,
         held := c.held - a,
         disputed := (c.disputed.remove txid).2 }) := by
  unfold Client.resolve Client.canProcess
  rw [hlock]
  simp [hrem]

theorem resolve_eq_wrongType (c : Client) (txid : Nat) (dt : Transaction)
    (hlock : c.locked = false)
    (hrem : (c.disputed.remove txid).1 = some dt)
    (ht : ∀ cid txid2 a, dt ≠ Transaction.deposit cid txid2 a) :
    c.resolve txid =
      (.error "Wrong transaction type, expected resolve",
       { c with disputed := (c.disputed.remove txid).2 }) := by
  unfold Client.resolve Client.canProcess
  rw [hlock]
  cases dt with
  | deposit cid txid2 a => exact absurd rfl (ht cid txid2 a)
  | withdrawal cid txid2 a => simp [hrem]
  | dispute cid txid2 => simp [hrem]
  | resolve cid txid2 => simp [hrem]
  | chargeBack cid txid2 => simp [hrem]
  | unknown => simp [hrem]

theorem chargeback_eq_notfound (c : Client) (txid : Nat)
    (hlock : c.locked = false)
    (hrem : (c.disputed.remove txid).1 = none) :
    c.chargeback txid =
      (.error "Could not find disputed transaction",
       { c with disputed := (c.disputed.remove txid).2 }) := by
  unfold Client.chargeback Client.canProcess
  rw [hlock]
  simp [hrem]

theorem chargeback_eq_deposit (c : Client) (txid : Nat) (c2 t2 : Nat) (a : Amount)
    (hlock : c.locked = false)
    (hrem : (c.disputed.remove txid).1 = some (Transaction.deposit c2 t2 a)) :
    c.chargeback txid =
      (.ok (),
       { c with
         locked := true,
         total := c.total - a,
         held := c.held - a,
         disputed := (c.disputed.remove txid).2 }) := by
  unfold Client.chargeback Client.canProcess
  rw [hlock]
  simp [hrem]

theorem chargeback_eq_wrongType (c : Client) (txid : Nat) (dt : Transaction)
    (hlock : c.locked = false)
    (hrem : (c.disputed.remove txid).1 = some dt)
    (ht : ∀ cid txid2 a, dt ≠ Transaction.deposit cid txid2 a) :
    c.chargeback txid =
      (.error "Wrong transaction type, expected resolve",
       { c with disputed := (c.disputed.remove txid).2 }) := by
  unfold Client.chargeback Client.canProcess
  rw [hlock]
  cases dt with
  | deposit cid txid2 a => exact absurd rfl (ht cid txid2 a)
  | withdrawal cid txid2 a => simp [hrem]
  | dispute cid txid2 => simp [hrem]
  | resolve cid txid2 => simp [hrem]
  | chargeBack cid txid2 => simp [hrem]
  | unknown => simp [hrem]

/-! ### Client well-formedness -/

/-- Entries of the processed store: a deposit or withdrawal keyed by its own
transaction id. -/
def GoodEntry (id : Nat) (t : Transaction) : Prop :=
  (∃ c a, t = Transaction.deposit c id a) ∨ (∃ c a, t = Transaction.withdrawal c id a)

/-- Entries of the disputed store: a deposit keyed by its own id. -/
def DisputedEntry (id : Nat) (t : Transaction) : Prop :=
  ∃ c a, t = Transaction.deposit c id a

structure ClientWF (c : Client) : Prop where
  wfP : CacheWF c.processed
  wfD : CacheWF c.disputed
  entP : EntryProp GoodEntry c.processed
  entD : EntryProp DisputedEntry c.disputed
  sums : c.total = c.available + c.held

theorem ClientWF_new (cid limit lineSize : Nat) : ClientWF (Client.new cid limit lineSize) := by
  refine ⟨CacheWF_new limit lineSize, CacheWF_new limit lineSize,
    EntryProp_new _ limit lineSize, EntryProp_new _ limit lineSize, ?_⟩
  show (0 : Amount) = 0 + 0
  ring

theorem ClientWF_deposit (c : Client) (t : Transaction) (h : ClientWF c) :
    ClientWF (c.deposit t).2 := by
  cases hlock : c.locked with
  | true =>
    rw [deposit_locked c t hlock]
    exact h
  | false =>
    cases t with
    | deposit cid txid a =>
      cases hdup : (c.processed.containsKey txid).1 with
      | true =>
        rw [deposit_eq_dup c cid txid a hlock hdup]
        exact ⟨CacheWF_touch c.processed _ h.wfP, h.wfD,
          EntryProp_touch c.processed _ h.entP, h.entD, h.sums⟩
      | false =>
        rw [deposit_eq_ok c cid txid a hlock hdup]
        have hp := touch_line_present c.processed (c.processed.cacheKey txid)
        refine ⟨?_, h.wfD, ?_, h.entD, ?_⟩
        · exact CacheWF_insert _ txid _ (CacheWF_touch c.processed _ h.wfP) hp
        · exact EntryProp_insert _ txid _ (CacheWF_touch c.processed _ h.wfP) hp
            (EntryProp_touch c.processed _ h.entP) (Or.inl ⟨cid, a, rfl⟩)
        · show c.total + a = c.available + a + c.held
          rw [h.sums]
          ring
    | withdrawal cid txid a =>
      rw [deposit_wrongType c _ hlock (fun _ _ _ hh => Transaction.noConfusion hh)]
      exact h
    | dispute cid txid =>
      rw [deposit_wrongType c _ hlock (fun _ _ _ hh => Transaction.noConfusion hh)]
      exact h
    | resolve cid txid =>
      rw [deposit_wrongType c _ hlock (fun _ _ _ hh => Transaction.noConfusion hh)]
      exact h
    | chargeBack cid txid =>
      rw [deposit_wrongType c _ hlock (fun _ _ _ hh => Transaction.noConfusion hh)]
      exact h
    | unknown =>
      rw [deposit_wrongType c _ hlock (fun _ _ _ hh => Transaction.noConfusion hh)]
      exact h

theorem ClientWF_withdraw (c : Client) (t : Transaction) (h : ClientWF c) :
    ClientWF (c.withdraw t).2 := by
  cases hlock : c.locked with
  | true =>
    rw [withdraw_locked c t hlock]
    exact h
  | false =>
    cases t with
    | withdrawal cid txid a =>
      cases hdup : (c.processed.containsKey txid).1 with
      | true =>
        rw [withdraw_eq_dup c cid txid a hlock hdup]
        exact ⟨CacheWF_touch c.processed _ h.wfP, h.wfD,
          EntryProp_touch c.processed _ h.entP, h.entD, h.sums⟩
      | false =>
        by_cases hfunds : a ≤ c.available
        · rw [withdraw_eq_ok c cid txid a hlock hdup hfunds]
          have hp := touch_line_present c.processed (c.processed.cacheKey txid)
          refine ⟨?_, h.wfD, ?_, h.entD, ?_⟩
          · exact CacheWF_insert _ txid _ (CacheWF_touch c.processed _ h.wfP) hp
          · exact EntryProp_insert _ txid _ (CacheWF_touch c.processed _ h.wfP) hp
              (EntryProp_touch c.processed _ h.entP) (Or.inr ⟨cid, a, rfl⟩)
          · show c.total - a = c.available - a + c.held
            rw [h.sums]
            ring
        · rw [withdraw_eq_insufficient c cid txid a hlock hdup hfunds]
          exact ⟨CacheWF_touch c.processed _ h.wfP, h.wfD,
            EntryProp_touch c.processed _ h.entP, h.entD, h.sums⟩
    | deposit cid txid a =>
      rw [withdraw_wrongType c _ hlock (fun _ _ _ hh => Transaction.noConfusion hh)]
      exact h
    | dispute cid txid =>
      rw [withdraw_wrongType c _ hlock (fun _ _ _ hh => Transaction.noConfusion hh)]
      exact h
    | resolve cid txid =>
      rw [withdraw_wrongType c _ hlock (fun _ _ _ hh => Transaction.noConfusion hh)]
      exact h
    | chargeBack cid txid =>
      rw [withdraw_wrongType c _ hlock (fun _ _ _ hh => Transaction.noConfusion hh)]
      exact h
    | unknown =>
      rw [withdraw_wrongType c _ hlock (fun _ _ _ hh => Transaction.noConfusion hh)]
      exact h

theorem ClientWF_dispute (c : Client) (txid : Nat) (h : ClientWF c) :
    ClientWF (c.dispute txid).2 := by
  cases hdup : (c.disputed.containsKey txid).1 with
  | true =>
    rw [dispute_eq_already c txid hdup]
    exact ⟨h.wfP, CacheWF_touch c.disputed _ h.wfD, h.entP,
      EntryProp_touch c.disputed _ h.entD, h.sums⟩
  | false =>
    cases hget : (c.processed.get txid).1 with
    | none =>
      rw [dispute_eq_notfound c txid hdup hget]
      exact ⟨CacheWF_touch c.processed _ h.wfP, CacheWF_touch c.disputed _ h.wfD,
        EntryProp_touch c.processed _ h.entP, EntryProp_touch c.disputed _ h.entD, h.sums⟩
    | some dt =>
      have hview : c.processed.viewT txid = some dt := by
        rw [← get_fst c.processed txid h.wfP]
        exact hget
      have hgood : GoodEntry txid dt := EntryProp_viewT h.entP hview
      rcases hgood with ⟨c2, a, rfl⟩ | ⟨c2, a, rfl⟩
      · rw [dispute_eq_deposit c txid c2 txid a hdup hget]
        have hp := touch_line_present c.disputed (c.disputed.cacheKey txid)
        refine ⟨CacheWF_touch c.processed _ h.wfP, ?_,
          EntryProp_touch c.processed _ h.entP, ?_, ?_⟩
        · exact CacheWF_insert _ txid _ (CacheWF_touch c.disputed _ h.wfD) hp
        · exact EntryProp_insert _ txid _ (CacheWF_touch c.disputed _ h.wfD) hp
            (EntryProp_touch c.disputed _ h.entD) ⟨c2, a, rfl⟩
        · show c.total = c.available - a + (c.held + a)
          rw [h.sums]
          ring
      · rw [dispute_eq_wrongType c txid _ hdup hget
          (fun _ _ _ hh => Transaction.noConfusion hh)]
        exact ⟨CacheWF_touch c.processed _ h.wfP, CacheWF_touch c.disputed _ h.wfD,
          EntryProp_touch c.processed _ h.entP, EntryProp_touch c.disputed _ h.entD, h.sums⟩

theorem ClientWF_resolve (c : Client) (txid : Nat) (h : ClientWF c) :
    ClientWF (c.resolve txid).2 := by
  cases hlock : c.locked with
  | true =>
    rw [resolve_locked c txid hlock]
    exact h
  | false =>
    cases hrem : (c.disputed.remove txid).1 with
    | none =>
      rw [resolve_eq_notfound c txid hlock hrem]
      exact ⟨h.wfP, CacheWF_remove c.disputed txid h.wfD, h.entP,
        EntryProp_remove c.disputed txid h.entD, h.sums⟩
    | some dt =>
      have hview : c.disputed.viewT txid = some dt := by
        rw [← remove_fst c.disputed txid h.wfD]
        exact hrem
      rcases EntryProp_viewT h.entD hview with ⟨c2, a, rfl⟩
      rw [resolve_eq_deposit c txid c2 txid a hlock hrem]
      refine ⟨h.wfP, CacheWF_remove c.disputed txid h.wfD, h.entP,
        EntryProp_remove c.disputed txid h.entD, ?_⟩
      show c.total = c.available + a + (c.held - a)
      rw [h.sums]
      ring

theorem ClientWF_chargeback (c : Client) (txid : Nat) (h : ClientWF c) :
    ClientWF (c.chargeback txid).2 := by
  cases hlock : c.locked with
  | true =>
    rw [chargeback_locked c txid hlock]
    exact h
  | false =>
    cases hrem : (c.disputed.remove txid).1 with
    | none =>
      rw [chargeback_eq_notfound c txid hlock hrem]
      exact ⟨h.wfP, CacheWF_remove c.disputed txid h.wfD, h.entP,
        EntryProp_remove c.disputed txid h.entD, h.sums⟩
    | some dt =>
      have hview : c.disputed.viewT txid = some dt := by
        rw [← remove_fst c.disputed txid h.wfD]
        exact hrem
      rcases EntryProp_viewT h.entD hview with ⟨c2, a, rfl⟩
      rw [chargeback_eq_deposit c txid c2 txid a hlock hrem]
      refine ⟨h.wfP, CacheWF_remove c.disputed txid h.wfD, h.entP,
        EntryProp_remove c.disputed txid h.entD, ?_⟩
      show c.total - a = c.available + (c.held - a)
      rw [h.sums]
      ring

theorem ClientWF_applyOp (c : Client) (o : Op) (h : ClientWF c) :
    ClientWF (c.applyOp o).2 := by
  cases o with
  | deposit t => exact ClientWF_deposit c t h
  | withdraw t => exact ClientWF_withdraw c t h
  | dispute txid => exact ClientWF_dispute c txid h
  | resolve txid => exact ClientWF_resolve c txid h
  | chargeback txid => exact ClientWF_chargeback c txid h

theorem ClientWF_applyOps (c : Client) (ops : List Op) (h : ClientWF c) :
    ClientWF (c.applyOps ops) := by
  induction ops generalizing c with
  | nil => exact h
  | cons o rest ih =>
    exact ih (c.applyOp o).2 (ClientWF_applyOp c o h)

theorem ClientWF_reachable (c : Client) (h : Client.Reachable c) : ClientWF c := by
  rcases h with ⟨cid, limit, lineSize, ops, rfl⟩
  exact ClientWF_applyOps _ ops (ClientWF_new cid limit lineSize)

/-! ### Errors leave the observable state unchanged -/

theorem observe_ext {c2 c : Client}
    (h1 : c2.available = c.available) (h2 : c2.held = c.held) (h3 : c2.total = c.total)
    (h4 : c2.locked = c.locked)
    (h5 : ∀ id, c2.processed.viewT id = c.processed.viewT id)
    (h6 : ∀ id, c2.disputed.viewT id = c.disputed.viewT id) :
    c2.observe = c.observe := by
  unfold Client.observe
  rw [h1, h2, h3, h4]
  rw [show (fun id => c2.processed.viewT id) = (fun id => c.processed.viewT id) from funext h5]
  rw [show (fun id => c2.disputed.viewT id) = (fun id => c.disputed.viewT id) from funext h6]

/-- A resolve or chargeback that does not find the id leaves both store views
unchanged: remove deletes id, but id was absent already. -/
theorem viewT_remove_absent (s : TransactionCache) (txid : Nat) (hwf : CacheWF s)
    (habsent : (s.remove txid).1 = none) :
    ∀ id, (s.remove txid).2.viewT id = s.viewT id := by
  intro id
  by_cases hid : id = txid
  · subst hid
    rw [viewT_remove_self s id hwf, ← remove_fst s id hwf, habsent]
  · exact viewT_remove_other s txid hwf id hid

theorem deposit_error_observe (c : Client) (t : Transaction) (e : String) (h : ClientWF c)
    (herr : (c.deposit t).1 = Except.error e) :
    (c.deposit t).2.observe = c.observe := by
  cases hlock : c.locked with
  | true => rw [deposit_locked c t hlock]
  | false =>
    cases t with
    | deposit cid txid a =>
      cases hdup : (c.processed.containsKey txid).1 with
      | true =>
        rw [deposit_eq_dup c cid txid a hlock hdup]
        exact observe_ext rfl rfl rfl rfl
          (fun id => viewT_touch c.processed _ id h.wfP) (fun id => rfl)
      | false =>
        rw [deposit_eq_ok c cid txid a hlock hdup] at herr
        exact absurd herr (by simp)
    | withdrawal cid txid a =>
      rw [deposit_wrongType c _ hlock (fun _ _ _ hh => Transaction.noConfusion hh)]
    | dispute cid txid =>
      rw [deposit_wrongType c _ hlock (fun _ _ _ hh => Transaction.noConfusion hh)]
    | resolve cid txid =>
      rw [deposit_wrongType c _ hlock (fun _ _ _ hh => Transaction.noConfusion hh)]
    | chargeBack cid txid =>
      rw [deposit_wrongType c _ hlock (fun _ _ _ hh => Transaction.noConfusion hh)]
    | unknown =>
      rw [deposit_wrongType c _ hlock (fun _ _ _ hh => Transaction.noConfusion hh)]

theorem withdraw_error_observe (c : Client) (t : Transaction) (e : String) (h : ClientWF c)
    (herr : (c.withdraw t).1 = Except.error e) :
    (c.withdraw t).2.observe = c.observe := by
  cases hlock : c.locked with
  | true => rw [withdraw_locked c t hlock]
  | false =>
    cases t with
    | withdrawal cid txid a =>
      cases hdup : (c.processed.containsKey txid).1 with
      | true =>
        rw [withdraw_eq_dup c cid txid a hlock hdup]
        exact observe_ext rfl rfl rfl rfl
          (fun id => viewT_touch c.processed _ id h.wfP) (fun id => rfl)
      | false =>
        by_cases hfunds : a ≤ c.available
        · rw [withdraw_eq_ok c cid txid a hlock hdup hfunds] at herr
          exact absurd herr (by simp)
        · rw [withdraw_eq_insufficient c cid txid a hlock hdup hfunds]
          exact observe_ext rfl rfl rfl rfl
            (fun id => viewT_touch c.processed _ id h.wfP) (fun id => rfl)
    | deposit cid txid a =>
      rw [withdraw_wrongType c _ hlock (fun _ _ _ hh => Transaction.noConfusion hh)]
    | dispute cid txid =>
      rw [withdraw_wrongType c _ hlock (fun _ _ _ hh => Transaction.noConfusion hh)]
    | resolve cid txid =>
      rw [withdraw_wrongType c _ hlock (fun _ _ _ hh => Transaction.noConfusion hh)]
    | chargeBack cid txid =>
      rw [withdraw_wrongType c _ hlock (fun _ _ _ hh => Transaction.noConfusion hh)]
    | unknown =>
      rw [withdraw_wrongType c _ hlock (fun _ _ _ hh => Transaction.noConfusion hh)]

theorem dispute_error_observe (c : Client) (txid : Nat) (e : String) (h : ClientWF c)
    (herr : (c.dispute txid).1 = Except.error e) :
    (c.dispute txid).2.observe = c.observe := by
  cases hdup : (c.disputed.containsKey txid).1 with
  | true =>
    rw [dispute_eq_already c txid hdup]
    exact observe_ext rfl rfl rfl rfl (fun id => rfl)
      (fun id => viewT_touch c.disputed _ id h.wfD)
  | false =>
    cases hget : (c.processed.get txid).1 with
    | none =>
      rw [dispute_eq_notfound c txid hdup hget]
      exact observe_ext rfl rfl rfl rfl
        (fun id => viewT_touch c.processed _ id h.wfP)
        (fun id => viewT_touch c.disputed _ id h.wfD)
    | some dt =>
      have hview : c.processed.viewT txid = some dt := by
        rw [← get_fst c.processed txid h.wfP]
        exact hget
      rcases EntryProp_viewT h.entP hview with ⟨c2, a, rfl⟩ | ⟨c2, a, rfl⟩
      · rw [dispute_eq_deposit c txid c2 txid a hdup hget] at herr
        exact absurd herr (by simp)
      · rw [dispute_eq_wrongType c txid _ hdup hget
          (fun _ _ _ hh => Transaction.noConfusion hh)]
        exact observe_ext rfl rfl rfl rfl
          (fun id => viewT_touch c.processed _ id h.wfP)
          (fun id => viewT_touch c.disputed _ id h.wfD)

theorem resolve_error_observe (c : Client) (txid : Nat) (e : String) (h : ClientWF c)
    (herr : (c.resolve txid).1 = Except.error e) :
    (c.resolve txid).2.observe = c.observe := by
  cases hlock : c.locked with
  | true => rw [resolve_locked c txid hlock]
  | false =>
    cases hrem : (c.disputed.remove txid).1 with
    | none =>
      rw [resolve_eq_notfound c txid hlock hrem]
      exact observe_ext rfl rfl rfl rfl (fun id => rfl)
        (viewT_remove_absent c.disputed txid h.wfD hrem)
    | some dt =>
      have hview : c.disputed.viewT txid = some dt := by
        rw [← remove_fst c.disputed txid h.wfD]
        exact hrem
      rcases EntryProp_viewT h.entD hview with ⟨c2, a, rfl⟩
      rw [resolve_eq_deposit c txid c2 txid a hlock hrem] at herr
      exact absurd herr (by simp)

theorem chargeback_error_observe (c : Client) (txid : Nat) (e : String) (h : ClientWF c)
    (herr : (c.chargeback txid).1 = Except.error e) :
    (c.chargeback txid).2.observe = c.observe := by
  cases hlock : c.locked with
  | true => rw [chargeback_locked c txid hlock]
  | false =>
    cases hrem : (c.disputed.remove txid).1 with
    | none =>
      rw [chargeback_eq_notfound c txid hlock hrem]
      exact observe_ext rfl rfl rfl rfl (fun id => rfl)
        (viewT_remove_absent c.disputed txid h.wfD hrem)
    | some dt =>
      have hview : c.disputed.viewT txid = some dt := by
        rw [← remove_fst c.disputed txid h.wfD]
        exact hrem
      rcases EntryProp_viewT h.entD hview with ⟨c2, a, rfl⟩
      rw [chargeback_eq_deposit c txid c2 txid a hlock hrem] at herr
      exact absurd herr (by simp)

theorem applyOp_error_observe (c : Client) (o : Op) (e : String) (h : ClientWF c)
    (herr : (c.applyOp o).1 = Except.error e) :
    (c.applyOp o).2.observe = c.observe := by
  cases o with
  | deposit t => exact deposit_error_observe c t e h herr
  | withdraw t => exact withdraw_error_observe c t e h herr
  | dispute txid => exact dispute_error_observe c txid e h herr
  | resolve txid => exact resolve_error_observe c txid e h herr
  | chargeback txid => exact chargeback_error_observe c txid e h herr

/-! ### Locked flag monotonicity -/

theorem locked_applyOp (c : Client) (o : Op) (h : c.locked = true) :
    (c.applyOp o).2.locked = true := by
  cases o with
  | deposit t =>
    show (c.deposit t).2.locked = true
    rw [deposit_locked c t h]
    exact h
  | withdraw t =>
    show (c.withdraw t).2.locked = true
    rw [withdraw_locked c t h]
    exact h
  | resolve txid =>
    show (c.resolve txid).2.locked = true
    rw [resolve_locked c txid h]
    exact h
  | chargeback txid =>
    show (c.chargeback txid).2.locked = true
    rw [chargeback_locked c txid h]
    exact h
  | dispute txid =>
    show (c.dispute txid).2.locked = true
    cases hdup : (c.disputed.containsKey txid).1 with
    | true =>
      rw [dispute_eq_already c txid hdup]
      exact h
    | false =>
      cases hget : (c.processed.get txid).1 with
      | none =>
        rw [dispute_eq_notfound c txid hdup hget]
        exact h
      | some dt =>
        cases dt with
        | deposit c2 t2 a =>
          rw [dispute_eq_deposit c txid c2 t2 a hdup hget]
          exact h
        | withdrawal c2 t2 a =>
          rw [dispute_eq_wrongType c txid _ hdup hget
            (fun _ _ _ hh => Transaction.noConfusion hh)]
          exact h
        | dispute c2 t2 =>
          rw [dispute_eq_wrongType c txid _ hdup hget
            (fun _ _ _ hh => Transaction.noConfusion hh)]
          exact h
        | resolve c2 t2 =>
          rw [dispute_eq_wrongType c txid _ hdup hget
            (fun _ _ _ hh => Transaction.noConfusion hh)]
          exact h
        | chargeBack c2 t2 =>
          rw [dispute_eq_wrongType c txid _ hdup hget
            (fun _ _ _ hh => Transaction.noConfusion hh)]
          exact h
        | unknown =>
          rw [dispute_eq_wrongType c txid _ hdup hget
            (fun _ _ _ hh => Transaction.noConfusion hh)]
          exact h

theorem locked_applyOps (c : Client) (ops : List Op) (h : c.locked = true) :
    (c.applyOps ops).locked = true := by
  induction ops generalizing c with
  | nil => exact h
  | cons o rest ih => exact ih (c.applyOp o).2 (locked_applyOp c o h)

/-! ### Success-path characterizations -/

theorem dispute_success (c : Client) (cid txid : Nat) (a : Amount) (h : ClientWF c)
    (hnd : c.disputed.viewT txid = none)
    (hp : c.processed.viewT txid = some (Transaction.deposit cid txid a)) :
    (c.dispute txid).1 = .ok () ∧
    (c.dispute txid).2.available = c.available - a ∧
    (c.dispute txid).2.held = c.held + a ∧
    (c.dispute txid).2.total = c.total ∧
    (c.dispute txid).2.locked = c.locked ∧
    (c.dispute txid).2.disputed.viewT txid = some (Transaction.deposit cid txid a) ∧
    (∀ id, id ≠ txid → (c.dispute txid).2.disputed.viewT id = c.disputed.viewT id) ∧
    (∀ id, (c.dispute txid).2.processed.viewT id = c.processed.viewT id) := by
  have hdup : (c.disputed.containsKey txid).1 = false := by
    rw [containsKey_fst c.disputed txid h.wfD, hnd]
    rfl
  have hget : (c.processed.get txid).1 = some (Transaction.deposit cid txid a) := by
    rw [get_fst c.processed txid h.wfP]
    exact hp
  rw [dispute_eq_deposit c txid cid txid a hdup hget]
  have hpres := touch_line_present c.disputed (c.disputed.cacheKey txid)
  refine ⟨rfl, rfl, rfl, rfl, rfl, ?_, ?_, ?_⟩
  · exact viewT_insert_self ((c.disputed.containsKey txid).2) txid _
      (CacheWF_touch c.disputed _ h.wfD) hpres
  · intro id hid
    have h1 := viewT_insert_other ((c.disputed.containsKey txid).2) txid
      (Transaction.deposit cid txid a) (CacheWF_touch c.disputed _ h.wfD) hpres id hid
    have h2 : ((c.disputed.containsKey txid).2).viewT id = c.disputed.viewT id :=
      viewT_touch c.disputed _ id h.wfD
    exact h1.trans h2
  · intro id
    exact viewT_touch c.processed _ id h.wfP

theorem resolve_success (c : Client) (cid txid : Nat) (a : Amount) (h : ClientWF c)
    (hlock : c.locked = false)
    (hd : c.disputed.viewT txid = some (Transaction.deposit cid txid a)) :
    (c.resolve txid).1 = .ok () ∧
    (c.resolve txid).2.available = c.available + a ∧
    (c.resolve txid).2.held = c.held - a ∧
    (c.resolve txid).2.total = c.total ∧
    (c.resolve txid).2.locked = c.locked ∧
    (c.resolve txid).2.disputed.viewT txid = none ∧
    (∀ id, id ≠ txid → (c.resolve txid).2.disputed.viewT id = c.disputed.viewT id) ∧
    (∀ id, (c.resolve txid).2.processed.viewT id = c.processed.viewT id) := by
  have hrem : (c.disputed.remove txid).1 = some (Transaction.deposit cid txid a) := by
    rw [remove_fst c.disputed txid h.wfD]
    exact hd
  rw [resolve_eq_deposit c txid cid txid a hlock hrem]
  refine ⟨rfl, rfl, rfl, rfl, rfl, ?_, ?_, ?_⟩
  · exact viewT_remove_self c.disputed txid h.wfD
  · intro id hid
    exact viewT_remove_other c.disputed txid h.wfD id hid
  · intro id
    rfl

theorem resolve_notfound (c : Client) (txid : Nat) (h : ClientWF c)
    (hlock : c.locked = false)
    (hnone : c.disputed.viewT txid = none) :
    (c.resolve txid).1 = .error "Could not find disputed transaction" ∧
    (c.resolve txid).2.observe = c.observe := by
  have hrem : (c.disputed.remove txid).1 = none := by
    rw [remove_fst c.disputed txid h.wfD]
    exact hnone
  rw [resolve_eq_notfound c txid hlock hrem]
  exact ⟨rfl, observe_ext rfl rfl rfl rfl (fun id => rfl)
    (viewT_remove_absent c.disputed txid h.wfD hrem)⟩

theorem deposit_dup_of_present (c : Client) (cid txid : Nat) (a : Amount) (t2 : Transaction)
    (h : ClientWF c) (hlock : c.locked = false)
    (hpres : c.processed.viewT txid = some t2) :
    (c.deposit (.deposit cid txid a)).1 = .error "Transaction already processed" ∧
    (c.deposit (.deposit cid txid a)).2.observe = c.observe := by
  have hdup : (c.processed.containsKey txid).1 = true := by
    rw [containsKey_fst c.processed txid h.wfP, hpres]
    rfl
  rw [deposit_eq_dup c cid txid a hlock hdup]
  exact ⟨rfl, observe_ext rfl rfl rfl rfl
    (fun id => viewT_touch c.processed _ id h.wfP) (fun id => rfl)⟩

theorem withdraw_dup_of_present (c : Client) (cid txid : Nat) (a : Amount) (t2 : Transaction)
    (h : ClientWF c) (hlock : c.locked = false)
    (hpres : c.processed.viewT txid = some t2) :
    (c.withdraw (.withdrawal cid txid a)).1 = .error "Transaction already processed" ∧
    (c.withdraw (.withdrawal cid txid a)).2.observe = c.observe := by
  have hdup : (c.processed.containsKey txid).1 = true := by
    rw [containsKey_fst c.processed txid h.wfP, hpres]
    rfl
  rw [withdraw_eq_dup c cid txid a hlock hdup]
  exact ⟨rfl, observe_ext rfl rfl rfl rfl
    (fun id => viewT_touch c.processed _ id h.wfP) (fun id => rfl)⟩

/-! ### No negative available without disputes -/

/-- Operations under which the non-negative-available argument goes through:
everything except dispute, with deposits carrying a non-negative amount. -/
def opSafe : Op → Bool
  | .deposit t =>
    match t with
    | .deposit _ _ a => decide (0 ≤ a)
    | _ => true
  | .withdraw _ => true
  | .dispute _ => false
  | .resolve _ => true
  | .chargeback _ => true

def NoDisputeInv (c : Client) : Prop :=
  0 ≤ c.available ∧ CacheWF c.disputed ∧ ∀ id, c.disputed.viewT id = none

theorem NoDisputeInv_applyOp (c : Client) (o : Op) (hs : opSafe o = true)
    (h : NoDisputeInv c) : NoDisputeInv (c.applyOp o).2 := by
  rcases h with ⟨hav, hwfD, hviews⟩
  cases o with
  | deposit t =>
    show NoDisputeInv (c.deposit t).2
    cases hlock : c.locked with
    | true =>
      rw [deposit_locked c t hlock]
      exact ⟨hav, hwfD, hviews⟩
    | false =>
      cases t with
      | deposit cid txid a =>
        have ha : 0 ≤ a := by
          have : decide (0 ≤ a) = true := hs
          exact of_decide_eq_true this
        cases hdup : (c.processed.containsKey txid).1 with
        | true =>
          rw [deposit_eq_dup c cid txid a hlock hdup]
          exact ⟨hav, hwfD, hviews⟩
        | false =>
          rw [deposit_eq_ok c cid txid a hlock hdup]
          exact ⟨add_nonneg hav ha, hwfD, hviews⟩
      | withdrawal cid txid a =>
        rw [deposit_wrongType c _ hlock (fun _ _ _ hh => Transaction.noConfusion hh)]
        exact ⟨hav, hwfD, hviews⟩
      | dispute cid txid =>
        rw [deposit_wrongType c _ hlock (fun _ _ _ hh => Transaction.noConfusion hh)]
        exact ⟨hav, hwfD, hviews⟩
      | resolve cid txid =>
        rw [deposit_wrongType c _ hlock (fun _ _ _ hh => Transaction.noConfusion hh)]
        exact ⟨hav, hwfD, hviews⟩
      | chargeBack cid txid =>
        rw [deposit_wrongType c _ hlock (fun _ _ _ hh => Transaction.noConfusion hh)]
        exact ⟨hav, hwfD, hviews⟩
      | unknown =>
        rw [deposit_wrongType c _ hlock (fun _ _ _ hh => Transaction.noConfusion hh)]
        exact ⟨hav, hwfD, hviews⟩
  | withdraw t =>
    show NoDisputeInv (c.withdraw t).2
    cases hlock : c.locked with
    | true =>
      rw [withdraw_locked c t hlock]
      exact ⟨hav, hwfD, hviews⟩
    | false =>
      cases t with
      | withdrawal cid txid a =>
        cases hdup : (c.processed.containsKey txid).1 with
        | true =>
          rw [withdraw_eq_dup c cid txid a hlock hdup]
          exact ⟨hav, hwfD, hviews⟩
        | false =>
          by_cases hfunds : a ≤ c.available
          · rw [withdraw_eq_ok c cid txid a hlock hdup hfunds]
            exact ⟨by simpa using sub_nonneg.mpr hfunds, hwfD, hviews⟩
          · rw [withdraw_eq_insufficient c cid txid a hlock hdup hfunds]
            exact ⟨hav, hwfD, hviews⟩
      | deposit cid txid a =>
        rw [withdraw_wrongType c _ hlock (fun _ _ _ hh => Transaction.noConfusion hh)]
        exact ⟨hav, hwfD, hviews⟩
      | dispute cid txid =>
        rw [withdraw_wrongType c _ hlock (fun _ _ _ hh => Transaction.noConfusion hh)]
        exact ⟨hav, hwfD, hviews⟩
      | resolve cid txid =>
        rw [withdraw_wrongType c _ hlock (fun _ _ _ hh => Transaction.noConfusion hh)]
        exact ⟨hav, hwfD, hviews⟩
      | chargeBack cid txid =>
        rw [withdraw_wrongType c _ hlock (fun _ _ _ hh => Transaction.noConfusion hh)]
        exact ⟨hav, hwfD, hviews⟩
      | unknown =>
        rw [withdraw_wrongType c _ hlock (fun _ _ _ hh => Transaction.noConfusion hh)]
        exact ⟨hav, hwfD, hviews⟩
  | dispute txid => exact absurd hs (by simp [opSafe])
  | resolve txid =>
    show NoDisputeInv (c.resolve txid).2
    cases hlock : c.locked with
    | true =>
      rw [resolve_locked c txid hlock]
      exact ⟨hav, hwfD, hviews⟩
    | false =>
      have hrem : (c.disputed.remove txid).1 = none := by
        rw [remove_fst c.disputed txid hwfD]
        exact hviews txid
      rw [resolve_eq_notfound c txid hlock hrem]
      refine ⟨hav, CacheWF_remove c.disputed txid hwfD, ?_⟩
      intro id
      rw [viewT_remove_absent c.disputed txid hwfD hrem id]
      exact hviews id
  | chargeback txid =>
    show NoDisputeInv (c.chargeback txid).2
    cases hlock : c.locked with
    | true =>
      rw [chargeback_locked c txid hlock]
      exact ⟨hav, hwfD, hviews⟩
    | false =>
      have hrem : (c.disputed.remove txid).1 = none := by
        rw [remove_fst c.disputed txid hwfD]
        exact hviews txid
      rw [chargeback_eq_notfound c txid hlock hrem]
      refine ⟨hav, CacheWF_remove c.disputed txid hwfD, ?_⟩
      intro id
      rw [viewT_remove_absent c.disputed txid hwfD hrem id]
      exact hviews id

theorem NoDisputeInv_applyOps (c : Client) (ops : List Op)
    (hs : ∀ o ∈ ops, opSafe o = true) (h : NoDisputeInv c) :
    NoDisputeInv (c.applyOps ops) := by
  induction ops generalizing c with
  | nil => exact h
  | cons o rest ih =>
    exact ih (c.applyOp o).2 (fun o2 ho2 => hs o2 (List.mem_cons.mpr (Or.inr ho2)))
      (NoDisputeInv_applyOp c o (hs o (List.mem_cons.mpr (Or.inl rfl))) h)

theorem NoDisputeInv_new (cid limit lineSize : Nat) :
    NoDisputeInv (Client.new cid limit lineSize) := by
  refine ⟨le_refl 0, CacheWF_new limit lineSize, ?_⟩
  intro id
  rfl

/-! ### Example states for concrete evaluation -/

instance : DecidableEq Res := fun a b =>
  match a, b with
  | .ok (), .ok () => isTrue rfl
  | .error e1, .error e2 =>
    if h : e1 = e2 then isTrue (by rw [h]) else isFalse (fun hh => h (by injection hh))
  | .ok (), .error _ => isFalse (fun hh => Except.noConfusion hh)
  | .error _, .ok () => isFalse (fun hh => Except.noConfusion hh)

def exTxn (n : Nat) : Transaction := Transaction.deposit 1 n 1

/-- Four inserts of distinct ids into a store with resident limit 1 and
partition width 4: ids 1, 2, 3 share partition 0; id 5 lives in partition 1.
The second insert flushes partition 0 holding ids 1 and 2; the fourth insert
flushes again, overwriting partition 0's file with only the resident id 3. -/
def exStore : TransactionCache :=
  (((((TransactionCache.new 1 4).insert 1 (exTxn 1)).2.insert 2 (exTxn 2)).2.insert 3
    (exTxn 3)).2.insert 5 (exTxn 5)).2

/-- The same four inserts applied to a plain map. -/
def exMapStore : List (Nat × Transaction) :=
  insertA (insertA (insertA (insertA [] 1 (exTxn 1)) 2 (exTxn 2)) 3 (exTxn 3)) 5 (exTxn 5)

def exOpsLocked : List Op :=
  [Op.deposit (Transaction.deposit 1 1 1), Op.dispute 1, Op.chargeback 1]

/-- A reachable locked account: deposit, dispute, chargeback. -/
def exLocked : Client := (Client.new 1 100 4).applyOps exOpsLocked

theorem exLocked_reachable : Client.Reachable exLocked := ⟨1, 100, 4, exOpsLocked, rfl⟩

def exOpsNeg : List Op :=
  [Op.deposit (Transaction.deposit 1 1 1), Op.withdraw (Transaction.withdrawal 1 2 1),
   Op.dispute 1]

/-- Deposit 1, withdraw 1, then dispute the deposit: available goes to -1. -/
def exNeg : Client := (Client.new 1 100 4).applyOps exOpsNeg

def exDepositOps : List Op := [Op.deposit (Transaction.deposit 1 1 1)]

def exDeposited : Client := (Client.new 1 100 4).applyOps exDepositOps

/-! ### The claims -/

/-- Claim C1 (confirmed): for every account ledger reachable from a fresh
account through any sequence of deposit, withdraw, dispute, resolve and
chargeback operations (successful or failing), the total equals available
plus held. -/
theorem claim1_total_is_available_plus_held (c : Client) (hreach : Client.Reachable c) :
    c.total = c.available + c.held :=
  (ClientWF_reachable c hreach).sums

theorem claim1_witness : exNeg.total = exNeg.available + exNeg.held :=
  claim1_total_is_available_plus_held exNeg ⟨1, 100, 4, exOpsNeg, rfl⟩

/-- Claim C2 (code bug): the store is NOT indistinguishable from a plain map
across flushes.  With resident limit 1 and partition width 4, inserting the
distinct ids 1, 2, 3, 5 (never removed) and then reading id 1 or 2 returns
none, because the second flush truncate-rewrites partition 0's file with only
the resident entry 3; a plain map still returns the original transactions.
This contradicts the doc comment on TransactionCache (src/transaction_cache.rs
lines 27-30) and the spill round-trip property of the spec. -/
theorem claim2_spill_loses_resident_transaction :
    (exStore.get 1).1 = none ∧
    (exStore.get 2).1 = none ∧
    (exStore.get 3).1 = some (exTxn 3) ∧
    findA exMapStore 1 = some (exTxn 1) ∧
    findA exMapStore 2 = some (exTxn 2) := by decide

/-- Claim C3 (code bug): Amount::from_str rejects more than 4 fractional
digits with InvalidPrecision and keeps accepted values exact, but on a text
that is not a well-formed decimal it calls unwrap on the failed parse and
aborts instead of returning an InvalidFormat error. -/
theorem claim3_parse_outcomes :
    Amount.fromStr "abc" = ParseOutcome.unwrapFailure ∧
    Amount.fromStr "1.23456" = ParseOutcome.invalidPrecision ∧
    Amount.fromStr "1.2345" = ParseOutcome.ok (DecimalRep.mk 12345 4) ∧
    DecimalRep.value (DecimalRep.mk 12345 4) = (12345 : ℚ) / 10000 ∧
    Amount.fromStr "" = ParseOutcome.unwrapFailure := by
  refine ⟨by decide, by decide, by decide, ?_, by decide⟩
  norm_num [DecimalRep.value]

/-- Claim C4 (corrected), counterexample: deposit 1, withdraw 1, then dispute
the deposit; dispute subtracts the disputed amount from available without
checking cover, so available becomes negative. -/
theorem claim4_counterexample : exNeg.available < 0 := by decide

/-- Claim C4 (corrected), amended: for every operation sequence from a fresh
account in which no dispute is applied and every deposit carries a
non-negative amount, available is never negative. -/
theorem claim4_amended_no_dispute_nonneg (cid limit lineSize : Nat) (ops : List Op)
    (hs : ∀ o ∈ ops, opSafe o = true) :
    0 ≤ ((Client.new cid limit lineSize).applyOps ops).available :=
  (NoDisputeInv_applyOps (Client.new cid limit lineSize) ops hs
    (NoDisputeInv_new cid limit lineSize)).1

theorem claim4_witness :
    0 ≤ ((Client.new 1 100 4).applyOps [Op.deposit (Transaction.deposit 1 1 2),
      Op.withdraw (Transaction.withdrawal 1 2 1)]).available :=
  claim4_amended_no_dispute_nonneg 1 100 4 _ (by decide)

/-- Claim C5 (confirmed): whenever an operation on a reachable ledger state
returns an error, the observable ledger state — available, held, total,
locked, and the contents of the processed and disputed stores — is exactly
what it was before the attempt. -/
theorem claim5_error_preserves_state (c : Client) (o : Op) (e : String)
    (hreach : Client.Reachable c) (herr : (c.applyOp o).1 = Except.error e) :
    (c.applyOp o).2.observe = c.observe :=
  applyOp_error_observe c o e (ClientWF_reachable c hreach) herr

theorem claim5_witness :
    ((Client.new 1 100 4).applyOp (Op.withdraw (Transaction.withdrawal 1 1 1))).2.observe
      = (Client.new 1 100 4).observe :=
  claim5_error_preserves_state (Client.new 1 100 4)
    (Op.withdraw (Transaction.withdrawal 1 1 1)) "Insufficient funds"
    ⟨1, 100, 4, [], rfl⟩ (by decide)

/-- Claim C6 (corrected), counterexample: on an account locked by a
chargeback, re-applying a deposit whose id is in the processed store fails
with AccountLocked, not DuplicateTransaction. -/
theorem claim6_counterexample :
    (exLocked.processed.viewT 1).isSome = true ∧
    (exLocked.deposit (Transaction.deposit 1 1 1)).1 = Except.error "Account locked" ∧
    (exLocked.deposit (Transaction.deposit 1 1 1)).1
      ≠ Except.error "Transaction already processed" := by decide

/-- Claim C6 (corrected), amended: re-applying a deposit or withdrawal whose
transaction id is already in the processed store fails — with
DuplicateTransaction when the account is not locked, with AccountLocked when
it is — and in both cases leaves available, held, total, the locked flag and
both store contents unchanged. -/
theorem claim6_amended_duplicate_rejected (c : Client) (cid txid : Nat) (a : Amount)
    (t2 : Transaction) (hreach : Client.Reachable c)
    (hpres : c.processed.viewT txid = some t2) :
    (c.locked = false →
      (c.deposit (Transaction.deposit cid txid a)).1
        = Except.error "Transaction already processed" ∧
      (c.withdraw (Transaction.withdrawal cid txid a)).1
        = Except.error "Transaction already processed") ∧
    (c.locked = true →
      (c.deposit (Transaction.deposit cid txid a)).1 = Except.error "Account locked" ∧
      (c.withdraw (Transaction.withdrawal cid txid a)).1 = Except.error "Account locked") ∧
    (c.deposit (Transaction.deposit cid txid a)).2.observe = c.observe ∧
    (c.withdraw (Transaction.withdrawal cid txid a)).2.observe = c.observe := by
  have hwf := ClientWF_reachable c hreach
  cases hlock : c.locked with
  | false =>
    have hd := deposit_dup_of_present c cid txid a t2 hwf hlock hpres
    have hw := withdraw_dup_of_present c cid txid a t2 hwf hlock hpres
    exact ⟨fun _ => ⟨hd.1, hw.1⟩,
      fun h => absurd h (by decide), hd.2, hw.2⟩
  | true =>
    refine ⟨fun h => absurd h (by decide),
      fun _ => ⟨?_, ?_⟩, ?_, ?_⟩
    · rw [deposit_locked c _ hlock]
    · rw [withdraw_locked c _ hlock]
    · rw [deposit_locked c _ hlock]
    · rw [withdraw_locked c _ hlock]

theorem claim6_witness :
    (exLocked.deposit (Transaction.deposit 1 1 1)).2.observe = exLocked.observe ∧
    (exLocked.withdraw (Transaction.withdrawal 1 1 1)).2.observe = exLocked.observe :=
  ⟨(claim6_amended_duplicate_rejected exLocked 1 1 1 (Transaction.deposit 1 1 1)
      exLocked_reachable (by decide)).2.2.1,
   (claim6_amended_duplicate_rejected exLocked 1 1 1 (Transaction.deposit 1 1 1)
      exLocked_reachable (by decide)).2.2.2⟩

/-- Claim C7 (confirmed): once locked, an account stays locked under every
further operation sequence; deposits, withdrawals, resolves and chargebacks
on it fail with AccountLocked and change nothing; dispute does not consult
the locked flag and succeeds (moving the amount from available to held and
recording the dispute) whenever its own preconditions hold. -/
theorem claim7_locked_terminal_dispute_exempt (c : Client)
    (hreach : Client.Reachable c) (hlock : c.locked = true) :
    (∀ ops, (c.applyOps ops).locked = true) ∧
    (∀ t, c.deposit t = (Except.error "Account locked", c)) ∧
    (∀ t, c.withdraw t = (Except.error "Account locked", c)) ∧
    (∀ id, c.resolve id = (Except.error "Account locked", c)) ∧
    (∀ id, c.chargeback id = (Except.error "Account locked", c)) ∧
    (∀ cid id a, c.disputed.viewT id = none →
      c.processed.viewT id = some (Transaction.deposit cid id a) →
      (c.dispute id).1 = .ok () ∧
      (c.dispute id).2.available = c.available - a ∧
      (c.dispute id).2.held = c.held + a ∧
      (c.dispute id).2.disputed.viewT id = some (Transaction.deposit cid id a)) := by
  refine ⟨fun ops => locked_applyOps c ops hlock,
    fun t => deposit_locked c t hlock,
    fun t => withdraw_locked c t hlock,
    fun id => resolve_locked c id hlock,
    fun id => chargeback_locked c id hlock,
    fun cid id a hnd hp => ?_⟩
  have h := dispute_success c cid id a (ClientWF_reachable c hreach) hnd hp
  exact ⟨h.1, h.2.1, h.2.2.1, h.2.2.2.2.2.1⟩

theorem claim7_witness :
    ((exLocked.applyOps [Op.deposit (Transaction.deposit 1 9 1)]).locked = true) ∧
    (exLocked.deposit (Transaction.deposit 1 9 1) = (Except.error "Account locked", exLocked)) ∧
    ((exLocked.dispute 1).1 = Except.ok ()) ∧
    ((exLocked.dispute 1).2.available = exLocked.available - 1) := by
  have h := claim7_locked_terminal_dispute_exempt exLocked exLocked_reachable (by decide)
  have h6 := h.2.2.2.2.2 1 1 1 (by decide) (by decide)
  exact ⟨h.1 _, h.2.1 _, h6.1, h6.2.1⟩

/-- Claim C8 (confirmed): on a reachable unlocked account whose processed
store holds a deposit of amount a under id txid not currently disputed,
dispute then resolve of txid both succeed and restore available and held to
their pre-dispute values, and a second resolve of the same id fails with
TransactionNotFound and changes nothing observable. -/
theorem claim8_dispute_resolve_roundtrip (c : Client) (cid txid : Nat) (a : Amount)
    (hreach : Client.Reachable c) (hlock : c.locked = false)
    (hp : c.processed.viewT txid = some (Transaction.deposit cid txid a))
    (hnd : c.disputed.viewT txid = none) :
    (c.dispute txid).1 = .ok () ∧
    ((c.dispute txid).2.resolve txid).1 = .ok () ∧
    ((c.dispute txid).2.resolve txid).2.available = c.available ∧
    ((c.dispute txid).2.resolve txid).2.held = c.held ∧
    (((c.dispute txid).2.resolve txid).2.resolve txid).1
      = Except.error "Could not find disputed transaction" ∧
    (((c.dispute txid).2.resolve txid).2.resolve txid).2.observe
      = ((c.dispute txid).2.resolve txid).2.observe := by
  have hwf := ClientWF_reachable c hreach
  have h1 := dispute_success c cid txid a hwf hnd hp
  have hwf1 : ClientWF (c.dispute txid).2 := ClientWF_dispute c txid hwf
  have hlock1 : (c.dispute txid).2.locked = false := by rw [h1.2.2.2.2.1, hlock]
  have h2 := resolve_success (c.dispute txid).2 cid txid a hwf1 hlock1 h1.2.2.2.2.2.1
  have hwf2 : ClientWF ((c.dispute txid).2.resolve txid).2 := ClientWF_resolve _ txid hwf1
  have hlock2 : ((c.dispute txid).2.resolve txid).2.locked = false := by
    rw [h2.2.2.2.2.1, hlock1]
  have h3 := resolve_notfound ((c.dispute txid).2.resolve txid).2 txid hwf2 hlock2
    h2.2.2.2.2.2.1
  refine ⟨h1.1, h2.1, ?_, ?_, h3.1, h3.2⟩
  · rw [h2.2.1, h1.2.1]
    ring
  · rw [h2.2.2.1, h1.2.2.1]
    ring

theorem claim8_witness :
    ((exDeposited.dispute 1).1 = Except.ok ()) ∧
    (((exDeposited.dispute 1).2.resolve 1).1 = Except.ok ()) ∧
    (((exDeposited.dispute 1).2.resolve 1).2.available = exDeposited.available) := by
  have h := claim8_dispute_resolve_roundtrip exDeposited 1 1 1
    ⟨1, 100, 4, exDepositOps, rfl⟩ (by decide) (by decide) (by decide)
  exact ⟨h.1, h.2.1, h.2.2.1⟩

/-- Claim C9 (corrected), counterexample: a partition created by insert has
its loaded flag false (CacheLine's derived default), not true as claimed; and
after a flush, re-inserting an id returns none rather than the previously
stored value, because insert only consults the in-memory partition. -/
theorem claim9_counterexample :
    (findA ((TransactionCache.new 10 4).insert 1 (exTxn 1)).2.cache 0).map CacheLine.loaded
      = some false ∧
    (((TransactionCache.new 0 4).insert 1 (exTxn 1)).2.insert 1 (exTxn 2)).1 = none := by
  decide

/-- Claim C9 (corrected), amended: insert places the entry in the owning
partition's in-memory map (creating the partition, when absent, with loaded
left false so that a later read still consults the disk file), increments the
resident counter by exactly one, returns the value previously present in the
in-memory partition (none when the previous value was only on disk), and then
evaluates the spill policy; stated here for the case where no flush fires. -/
theorem claim9_amended_insert_spec (s : TransactionCache) (txid : Nat) (t : Transaction)
    (hnoflush : ¬ s.cacheSizeLimit < s.cacheSize + 1) :
    (s.insert txid t).1 =
      findA ((findA s.cache (s.cacheKey txid)).getD CacheLine.dflt).transactions txid ∧
    (s.insert txid t).2.cacheSize = s.cacheSize + 1 ∧
    (s.insert txid t).2.disk = s.disk ∧
    ∃ line2, findA (s.insert txid t).2.cache (s.cacheKey txid) = some line2 ∧
      line2.loaded = ((findA s.cache (s.cacheKey txid)).getD CacheLine.dflt).loaded ∧
      (findA s.cache (s.cacheKey txid) = none → line2.loaded = false) ∧
      findA line2.transactions txid = some t := by
  have heq : s.insert txid t =
      (findA ((findA s.cache (s.cacheKey txid)).getD CacheLine.dflt).transactions txid,
       TransactionCache.storeCache (TransactionCache.mk s.cacheSizeLimit s.cacheLineSize
         (insertA s.cache (s.cacheKey txid)
           (CacheLine.mk ((findA s.cache (s.cacheKey txid)).getD CacheLine.dflt).loaded
             (insertA ((findA s.cache (s.cacheKey txid)).getD CacheLine.dflt).transactions
               txid t)))
         (s.cacheSize + 1) s.disk)) := rfl
  have hsc : TransactionCache.storeCache (TransactionCache.mk s.cacheSizeLimit s.cacheLineSize
      (insertA s.cache (s.cacheKey txid)
        (CacheLine.mk ((findA s.cache (s.cacheKey txid)).getD CacheLine.dflt).loaded
          (insertA ((findA s.cache (s.cacheKey txid)).getD CacheLine.dflt).transactions
            txid t)))
      (s.cacheSize + 1) s.disk) = TransactionCache.mk s.cacheSizeLimit s.cacheLineSize
      (insertA s.cache (s.cacheKey txid)
        (CacheLine.mk ((findA s.cache (s.cacheKey txid)).getD CacheLine.dflt).loaded
          (insertA ((findA s.cache (s.cacheKey txid)).getD CacheLine.dflt).transactions
            txid t)))
      (s.cacheSize + 1) s.disk := by
    unfold TransactionCache.storeCache
    dsimp only
    rw [if_neg hnoflush]
  rw [heq, hsc]
  refine ⟨rfl, rfl, rfl,
    CacheLine.mk ((findA s.cache (s.cacheKey txid)).getD CacheLine.dflt).loaded
      (insertA ((findA s.cache (s.cacheKey txid)).getD CacheLine.dflt).transactions txid t),
    ?_, rfl, ?_, ?_⟩
  · rw [findA_insertA, if_pos rfl]
  · intro hnone
    show ((findA s.cache (s.cacheKey txid)).getD CacheLine.dflt).loaded = false
    rw [hnone]
    rfl
  · show findA (insertA ((findA s.cache (s.cacheKey txid)).getD
      CacheLine.dflt).transactions txid t) txid = some t
    rw [findA_insertA, if_pos rfl]

theorem claim9_witness :
    ((TransactionCache.new 10 4).insert 1 (exTxn 1)).1 = none ∧
    ((TransactionCache.new 10 4).insert 1 (exTxn 1)).2.cacheSize = 1 := by
  have h := claim9_amended_insert_spec (TransactionCache.new 10 4) 1 (exTxn 1) (by decide)
  exact ⟨h.1, h.2.1⟩

/-- Claim C10 (confirmed): on every reachable ledger state, every transaction
held in the disputed store is a Deposit, and consequently the
WrongTransactionType branches of resolve and chargeback can never be taken. -/
theorem claim10_disputed_only_deposits (c : Client) (hreach : Client.Reachable c) :
    (∀ id t, c.disputed.viewT id = some t → t.isDeposit = true) ∧
    (∀ id, (c.resolve id).1 ≠ Except.error "Wrong transaction type, expected resolve") ∧
    (∀ id, (c.chargeback id).1 ≠ Except.error "Wrong transaction type, expected resolve") := by
  have hwf := ClientWF_reachable c hreach
  refine ⟨?_, ?_, ?_⟩
  · intro id t hv
    rcases EntryProp_viewT hwf.entD hv with ⟨c2, a, rfl⟩
    rfl
  · intro id
    cases hlock : c.locked with
    | true =>
      rw [resolve_locked c id hlock]
      intro hcontra
      have h2 : (Except.error "Account locked" : Res)
          = Except.error "Wrong transaction type, expected resolve" := hcontra
      exact absurd h2 (by decide)
    | false =>
      cases hrem : (c.disputed.remove id).1 with
      | none =>
        rw [resolve_eq_notfound c id hlock hrem]
        intro hcontra
        have h2 : (Except.error "Could not find disputed transaction" : Res)
            = Except.error "Wrong transaction type, expected resolve" := hcontra
        exact absurd h2 (by decide)
      | some dt =>
        have hview : c.disputed.viewT id = some dt := by
          rw [← remove_fst c.disputed id hwf.wfD]
          exact hrem
        rcases EntryProp_viewT hwf.entD hview with ⟨c2, a, rfl⟩
        rw [resolve_eq_deposit c id c2 id a hlock hrem]
        intro hcontra
        have h2 : (Except.ok () : Res)
            = Except.error "Wrong transaction type, expected resolve" := hcontra
        exact absurd h2 (by decide)
  · intro id
    cases hlock : c.locked with
    | true =>
      rw [chargeback_locked c id hlock]
      intro hcontra
      have h2 : (Except.error "Account locked" : Res)
          = Except.error "Wrong transaction type, expected resolve" := hcontra
      exact absurd h2 (by decide)
    | false =>
      cases hrem : (c.disputed.remove id).1 with
      | none =>
        rw [chargeback_eq_notfound c id hlock hrem]
        intro hcontra
        have h2 : (Except.error "Could not find disputed transaction" : Res)
            = Except.error "Wrong transaction type, expected resolve" := hcontra
        exact absurd h2 (by decide)
      | some dt =>
        have hview : c.disputed.viewT id = some dt := by
          rw [← remove_fst c.disputed id hwf.wfD]
          exact hrem
        rcases EntryProp_viewT hwf.entD hview with ⟨c2, a, rfl⟩
        rw [chargeback_eq_deposit c id c2 id a hlock hrem]
        intro hcontra
        have h2 : (Except.ok () : Res)
            = Except.error "Wrong transaction type, expected resolve" := hcontra
        exact absurd h2 (by decide)

theorem claim10_witness :
    ((Client.new 1 10 4).resolve 5).1
      ≠ Except.error "Wrong transaction type, expected resolve" :=
  (claim10_disputed_only_deposits (Client.new 1 10 4) ⟨1, 10, 4, [], rfl⟩).2.1 5

end Txn
